import Mathlib

/-!
Verification of the `rl_agent` idle-game optimizer (simulation engine,
priority-list evaluator, simulated annealing, hill climbing, greedy baseline)
against its natural-language specification.

The Python source is shallowly embedded:
* Python floats are modelled as exact rationals (`ℚ`); the specification
  describes the quantities as real numbers, and every constant of the shipped
  configuration is an exact decimal.
* Python dicts keyed by strings are modelled as total functions
  `String → _` with default value `0` / `false`: `dict.get(k, 0.0)` is the
  total read, and the state dictionaries are only ever written at keys of the
  configuration, where the two views agree.
* `int(x)` (truncation toward zero) is `pyInt`; Python list indexing with its
  negative-index convention is `pyGet` (out-of-range indexing, which raises
  `IndexError` in Python, returns the stated default; no verified statement
  depends on that branch).
* `self._creatures[cid]` lookups go through `findCreature` (first match);
  Python builds the dict with the last duplicate winning, but every statement
  that touches the table carries or proves distinctness of the ids, where the
  two agree.
-/

/-- Python `int(x)`: truncation of a rational toward zero. -/
def pyInt (q : ℚ) : ℤ :=
  if 0 ≤ q then ⌊q⌋ else -⌊-q⌋

/-- Python list indexing `l[i]` including the negative-index convention;
`dfl` is returned on the out-of-range case (where Python raises). -/
def pyGet (l : List α) (i : ℤ) (dfl : α) : α :=
  if 0 ≤ i then l.getD i.toNat dfl else l.getD (l.length - (-i).toNat) dfl

/-- A cost dict (`resource id → amount`), modelled as an association list in
the dict's iteration order.  The dicts in the configuration have distinct
keys (Python dict keys are unique by construction). -/
abbrev Cost := List (String × ℚ)

/-- The keys of a cost. -/
def costKeys (cl : Cost) : List String := cl.map (·.1)

/-- One creature definition of the configuration (`config.py`). -/
structure CreatureDef where
  id : String
  name : String
  unlockedByDefault : Bool
  produces : String
  spawnTime : ℚ
  maxLevel : Nat
  productionByLevel : List ℚ
  damageByLevel : List ℚ
  unlockCost : Option Cost
  upgradeCosts : List Cost
  deriving DecidableEq

/-- The kind tag of a boost (`'production-bonus' | 'speed' | 'damage'`). -/
inductive BoostType where
  | production
  | speed
  | damage
  deriving DecidableEq

/-- One boost definition of the configuration (`config.py`). -/
structure BoostDef where
  id : String
  name : String
  btype : BoostType
  resource : Option String
  maxLevel : Nat
  bonusByLevel : List ℚ
  costs : List Cost
  deriving DecidableEq

/-- The event configuration (resource ids, creatures, boosts, duration). -/
structure Config where
  duration : ℚ
  resources : List String
  creatures : List CreatureDef
  boosts : List BoostDef

/-- The mutable state of a `GameSim` (its `reset`-initialised attributes). -/
structure SimState where
  resources : String → ℚ
  creature_levels : String → Nat
  creature_unlocked : String → Bool
  creature_progress : String → ℚ
  boost_levels : String → Nat
  total_damage : ℚ
  time_elapsed_ms : ℚ

/-- `self._creatures[cid]` (the creature table lookup). -/
def findCreature (cfg : Config) (cid : String) : Option CreatureDef :=
  cfg.creatures.find? (fun c => c.id = cid)

/-- `self._boosts[bid]` (the boost table lookup). -/
def findBoost (cfg : Config) (bid : String) : Option BoostDef :=
  cfg.boosts.find? (fun b => b.id = bid)

/-- `GameSim.reset`: zero resources, default unlock flags and levels, zero
progress, zero boost levels, zero damage and elapsed time. -/
def reset (cfg : Config) : SimState where
  resources := fun _ => 0
  creature_levels := fun cid =>
    match findCreature cfg cid with
    | some c => if c.unlockedByDefault then 1 else 0
    | none => 0
  creature_unlocked := fun cid =>
    match findCreature cfg cid with
    | some c => c.unlockedByDefault
    | none => false
  creature_progress := fun _ => 0
  boost_levels := fun _ => 0
  total_damage := 0
  time_elapsed_ms := 0

/-- The scan of `GameSim.get_speed_multiplier` over the boost list: the first
speed boost with a positive level determines the multiplier. -/
def speedScan (s : SimState) : List BoostDef → ℚ
  | [] => 1
  | b :: rest =>
      if b.btype = BoostType.speed ∧ 0 < s.boost_levels b.id then
        1 - pyGet b.bonusByLevel ((s.boost_levels b.id : ℤ) - 1) 0
      else speedScan s rest

/-- `GameSim.get_speed_multiplier`. -/
def get_speed_multiplier (cfg : Config) (s : SimState) : ℚ :=
  speedScan s cfg.boosts

/-- The scan of `GameSim.get_damage_multiplier` over the boost list. -/
def damageScan (s : SimState) : List BoostDef → ℚ
  | [] => 1
  | b :: rest =>
      if b.btype = BoostType.damage ∧ 0 < s.boost_levels b.id then
        1 + pyGet b.bonusByLevel ((s.boost_levels b.id : ℤ) - 1) 0
      else damageScan s rest

/-- `GameSim.get_damage_multiplier`. -/
def get_damage_multiplier (cfg : Config) (s : SimState) : ℚ :=
  damageScan s cfg.boosts

/-- The scan of `GameSim.get_production_bonus` over the boost list. -/
def productionScan (s : SimState) (rid : String) : List BoostDef → ℚ
  | [] => 0
  | b :: rest =>
      if b.btype = BoostType.production ∧ b.resource = some rid
          ∧ 0 < s.boost_levels b.id then
        pyGet b.bonusByLevel ((s.boost_levels b.id : ℤ) - 1) 0
      else productionScan s rid rest

/-- `GameSim.get_production_bonus`. -/
def get_production_bonus (cfg : Config) (s : SimState) (rid : String) : ℚ :=
  productionScan s rid cfg.boosts

/-- `GameSim.get_effective_spawn_time`. -/
def get_effective_spawn_time (cfg : Config) (s : SimState) (c : CreatureDef) : ℚ :=
  c.spawnTime * get_speed_multiplier cfg s

/-- A creature is skipped by the tick loop unless it is unlocked with a
nonzero level (`if not unlocked or level == 0: continue`). -/
def isActive (s : SimState) (c : CreatureDef) : Bool :=
  s.creature_unlocked c.id && (s.creature_levels c.id != 0)

/-- The body of the creature loop of `GameSim.advance` for one creature:
accumulate progress, fire `ticks` full spawns, credit production and damage. -/
def advanceCreature (cfg : Config) (speed dmg_mult δ : ℚ)
    (s : SimState) (c : CreatureDef) : SimState :=
  if isActive s c then
    let lv := s.creature_levels c.id
    let spawn_time := c.spawnTime * speed
    let prog := s.creature_progress c.id + δ
    let ticks := pyInt (prog / spawn_time)
    if ticks = 0 then
      { s with creature_progress := Function.update s.creature_progress c.id prog }
    else
      let prod := pyGet c.productionByLevel ((lv : ℤ) - 1) 0
                    + get_production_bonus cfg s c.produces
      let dmg := pyGet c.damageByLevel ((lv : ℤ) - 1) 0 * dmg_mult
      { s with
        creature_progress :=
          Function.update s.creature_progress c.id (prog - (ticks : ℚ) * spawn_time)
        resources :=
          Function.update s.resources c.produces
            (s.resources c.produces + prod * (ticks : ℚ))
        total_damage := s.total_damage + dmg * (ticks : ℚ) }
  else s

/-- `GameSim.advance(delta_ms)`: the multipliers are sampled once, the
creature loop runs in configuration order, and elapsed time advances
unconditionally. -/
def advance (cfg : Config) (δ : ℚ) (s : SimState) : SimState :=
  let speed := get_speed_multiplier cfg s
  let dm := get_damage_multiplier cfg s
  let s1 := cfg.creatures.foldl (advanceCreature cfg speed dm δ) s
  { s1 with time_elapsed_ms := s1.time_elapsed_ms + δ }

/-- `GameSim.can_afford` on a concrete cost dict. -/
def canAffordL (s : SimState) (cl : Cost) : Bool :=
  cl.all (fun p => decide (p.2 ≤ s.resources p.1))

/-- `GameSim.can_afford`: `None` (not purchasable) is never affordable. -/
def can_afford (s : SimState) (cost : Option Cost) : Bool :=
  match cost with
  | none => false
  | some cl => canAffordL s cl

/-- `GameSim._spend`: debit every resource of the cost. -/
def spend (cl : Cost) (s : SimState) : SimState :=
  { s with resources :=
      cl.foldl (fun f p => Function.update f p.1 (f p.1 - p.2)) s.resources }

/-- `GameSim.get_creature_upgrade_cost`: unlock cost while locked, `None` at
max level, otherwise `upgradeCosts[level - 1]`. -/
def get_creature_upgrade_cost (cfg : Config) (s : SimState) (cid : String) :
    Option Cost :=
  match findCreature cfg cid with
  | none => none
  | some c =>
      if s.creature_unlocked cid = false then c.unlockCost
      else if c.maxLevel ≤ s.creature_levels cid then none
      else some (pyGet c.upgradeCosts ((s.creature_levels cid : ℤ) - 1) [])

/-- `GameSim.get_boost_upgrade_cost`: `None` at max level, else `costs[level]`. -/
def get_boost_upgrade_cost (cfg : Config) (s : SimState) (bid : String) :
    Option Cost :=
  match findBoost cfg bid with
  | none => none
  | some b =>
      if b.maxLevel ≤ s.boost_levels bid then none
      else some (pyGet b.costs (s.boost_levels bid : ℤ) [])

/-- `GameSim.upgrade_creature`: returns whether the purchase applied, and the
resulting state. -/
def upgrade_creature (cfg : Config) (cid : String) (s : SimState) :
    Bool × SimState :=
  match get_creature_upgrade_cost cfg s cid with
  | none => (false, s)
  | some cl =>
      if canAffordL s cl = false then (false, s)
      else
        let s1 := spend cl s
        if s.creature_unlocked cid = false then
          (true, { s1 with
            creature_unlocked := Function.update s1.creature_unlocked cid true
            creature_levels := Function.update s1.creature_levels cid 1 })
        else
          (true, { s1 with
            creature_levels :=
              Function.update s1.creature_levels cid (s.creature_levels cid + 1) })

/-- `GameSim.upgrade_boost`. -/
def upgrade_boost (cfg : Config) (bid : String) (s : SimState) :
    Bool × SimState :=
  match get_boost_upgrade_cost cfg s bid with
  | none => (false, s)
  | some cl =>
      if canAffordL s cl = false then (false, s)
      else
        let s1 := spend cl s
        (true, { s1 with
          boost_levels := Function.update s1.boost_levels bid (s.boost_levels bid + 1) })

/-- `GameSim.get_creature_damage`. -/
def get_creature_damage (cfg : Config) (s : SimState) (cid : String) : ℚ :=
  match findCreature cfg cid with
  | none => 0
  | some c =>
      if isActive s c then
        pyGet c.damageByLevel ((s.creature_levels cid : ℤ) - 1) 0
          * get_damage_multiplier cfg s
      else 0

/-- `GameSim.get_dps`: damage per second summed over active creatures. -/
def get_dps (cfg : Config) (s : SimState) : ℚ :=
  cfg.creatures.foldl
    (fun acc c =>
      if isActive s c then
        acc + get_creature_damage cfg s c.id
                / (get_effective_spawn_time cfg s c / 1000)
      else acc) 0

/-- `GameSim.is_done`. -/
def is_done (cfg : Config) (s : SimState) : Bool :=
  decide (cfg.duration ≤ s.time_elapsed_ms)

/-! ## The shipped configuration (`config.py`, mirror of `events/otherTower.js`) -/

/-- `TIME_FACTOR` of `config.py`. -/
def TIME_FACTOR : ℚ := 5

/-- `HOURS` of `config.py` (milliseconds per hour). -/
def HOURS : ℚ := 60 * 60 * 1000

/-- `EVENT_DURATION_HOURS` of `config.py` (14.4 hours). -/
def EVENT_DURATION_HOURS : ℚ := 72 / TIME_FACTOR

/-- The `fiona` creature of `config.py`. -/
def fiona : CreatureDef where
  id := "fiona"
  name := "Feral Fiona"
  unlockedByDefault := true
  produces := "sapphires"
  spawnTime := 5000 / TIME_FACTOR
  maxLevel := 10
  productionByLevel := [1, 2, 3, 4, 5, 6, 7, 8, 9, 10]
  damageByLevel := [5, 10, 25, 50, 100, 250, 500, 1000, 2500, 5000]
  unlockCost := none
  upgradeCosts :=
      [ [("sapphires", 5)],
        [("sapphires", 50)],
        [("emeralds", 25)],
        [("emeralds", 100), ("sapphires", 250)],
        [("emeralds", 2500)],
        [("sapphires", 5000)],
        [("rubies", 100)],
        [("rubies", 500), ("emeralds", 10000)],
        [("rubies", 2500)] ]

/-- The `jingles` creature of `config.py`. -/
def jingles : CreatureDef where
  id := "jingles"
  name := "Jingles"
  unlockedByDefault := false
  produces := "emeralds"
  spawnTime := 10000 / TIME_FACTOR
  maxLevel := 10
  productionByLevel := [1, 2, 3, 4, 5, 6, 7, 8, 9, 10]
  damageByLevel := [50, 100, 250, 500, 1000, 2500, 5000, 10000, 25000, 50000]
  unlockCost := some [("sapphires", 250)]
  upgradeCosts :=
      [ [("emeralds", 50), ("sapphires", 250)],
        [("emeralds", 250)],
        [("emeralds", 500), ("sapphires", 1000)],
        [("emeralds", 2500)],
        [("emeralds", 3000), ("sapphires", 10000)],
        [("rubies", 250)],
        [("rubies", 750), ("emeralds", 5000)],
        [("rubies", 3000)],
        [("emeralds", 10000), ("sapphires", 25000)] ]

/-- The `ox` creature of `config.py`. -/
def ox : CreatureDef where
  id := "ox"
  name := "Ox"
  unlockedByDefault := false
  produces := "sapphires"
  spawnTime := 15000 / TIME_FACTOR
  maxLevel := 10
  productionByLevel := [6, 7, 8, 9, 10, 11, 12, 13, 14, 15]
  damageByLevel := [375, 750, 1875, 3750, 7500, 18750, 37500, 75000, 187500, 375000]
  unlockCost := some [("emeralds", 1000)]
  upgradeCosts :=
      [ [("sapphires", 2500)],
        [("emeralds", 3000)],
        [("emeralds", 2500), ("sapphires", 2500)],
        [("rubies", 1000)],
        [("emeralds", 5000), ("sapphires", 5000)],
        [("rubies", 2500), ("sapphires", 5000)],
        [("rubies", 4000)],
        [("rubies", 3000), ("emeralds", 6000)],
        [("sapphires", 50000)] ]

/-- The `batilda` creature of `config.py`. -/
def batilda : CreatureDef where
  id := "batilda"
  name := "Batilda"
  unlockedByDefault := false
  produces := "rubies"
  spawnTime := 20000 / TIME_FACTOR
  maxLevel := 10
  productionByLevel := [1, 2, 3, 4, 5, 6, 7, 8, 9, 10]
  damageByLevel := [1250, 2500, 6250, 12500, 25000, 62500, 125000, 250000, 500000, 1250000]
  unlockCost := some [("emeralds", 5000), ("sapphires", 10000)]
  upgradeCosts :=
      [ [("rubies", 2500), ("emeralds", 2500)],
        [("rubies", 5000)],
        [("rubies", 7500), ("emeralds", 7500)],
        [("rubies", 10000)],
        [("rubies", 15000), ("sapphires", 10000)],
        [("rubies", 20000), ("emeralds", 5000)],
        [("rubies", 25000)],
        [("rubies", 30000), ("emeralds", 10000)],
        [("rubies", 50000), ("sapphires", 25000)] ]

/-- The `murky-mandy` creature of `config.py`. -/
def murkyMandy : CreatureDef where
  id := "murky-mandy"
  name := "Murky Mandy"
  unlockedByDefault := false
  produces := "emeralds"
  spawnTime := 25000 / TIME_FACTOR
  maxLevel := 10
  productionByLevel := [6, 7, 8, 9, 10, 11, 12, 13, 14, 15]
  damageByLevel := [10000, 20000, 50000, 100000, 200000, 500000, 1000000, 2000000, 5000000, 10000000]
  unlockCost := some [("rubies", 2500)]
  upgradeCosts :=
      [ [("sapphires", 25000)],
        [("rubies", 2500), ("emeralds", 15000)],
        [("emeralds", 15000), ("sapphires", 30000)],
        [("rubies", 7500)],
        [("sapphires", 75000)],
        [("emeralds", 25000), ("sapphires", 50000)],
        [("emeralds", 50000)],
        [("rubies", 30000), ("sapphires", 90000)],
        [("rubies", 40000)] ]

/-- The `patches` creature of `config.py`. -/
def patches : CreatureDef where
  id := "patches"
  name := "Patches"
  unlockedByDefault := false
  produces := "rubies"
  spawnTime := 30000 / TIME_FACTOR
  maxLevel := 10
  productionByLevel := [6, 7, 8, 9, 10, 11, 12, 13, 14, 15]
  damageByLevel := [25000, 50000, 125000, 250000, 500000, 1250000, 2500000, 5000000, 12500000, 25000000]
  unlockCost := some [("rubies", 5000)]
  upgradeCosts :=
      [ [("emeralds", 10000)],
        [("sapphires", 50000)],
        [("rubies", 7500), ("emeralds", 15000)],
        [("sapphires", 100000)],
        [("emeralds", 30000)],
        [("rubies", 30000)],
        [("rubies", 25000), ("sapphires", 75000)],
        [("emeralds", 60000)],
        [("rubies", 50000), ("sapphires", 150000)] ]

/-- The `sapphire-boost` boost of `config.py`. -/
def sapphireBoost : BoostDef where
  id := "sapphire-boost"
  name := "Sapphire Boost"
  btype := BoostType.production
  resource := some "sapphires"
  maxLevel := 5
  bonusByLevel := [1, 2, 3, 4, 5]
  costs :=
      [ [("emeralds", 100)],
        [("sapphires", 1000)],
        [("emeralds", 2500)],
        [("rubies", 1000)],
        [("emeralds", 10000)] ]

/-- The `emerald-boost` boost of `config.py`. -/
def emeraldBoost : BoostDef where
  id := "emerald-boost"
  name := "Emerald Boost"
  btype := BoostType.production
  resource := some "emeralds"
  maxLevel := 5
  bonusByLevel := [1, 2, 3, 4, 5]
  costs :=
      [ [("sapphires", 500)],
        [("emeralds", 1000)],
        [("rubies", 500)],
        [("sapphires", 15000)],
        [("rubies", 5000)] ]

/-- The `ruby-boost` boost of `config.py`. -/
def rubyBoost : BoostDef where
  id := "ruby-boost"
  name := "Ruby Boost"
  btype := BoostType.production
  resource := some "rubies"
  maxLevel := 3
  bonusByLevel := [1, 2, 3]
  costs :=
      [ [("rubies", 500)],
        [("emeralds", 25000)],
        [("sapphires", 75000)] ]

/-- The `champion-speed` boost of `config.py`. -/
def championSpeed : BoostDef where
  id := "champion-speed"
  name := "Champion Speed"
  btype := BoostType.speed
  resource := none
  maxLevel := 5
  bonusByLevel := [5/100, 10/100, 15/100, 20/100, 25/100]
  costs :=
      [ [("sapphires", 10000)],
        [("emeralds", 25000)],
        [("rubies", 15000)],
        [("sapphires", 100000)],
        [("emeralds", 100000)] ]

/-- The `champion-damage` boost of `config.py`. -/
def championDamage : BoostDef where
  id := "champion-damage"
  name := "Champion Damage"
  btype := BoostType.damage
  resource := none
  maxLevel := 4
  bonusByLevel := [25/100, 50/100, 75/100, 1]
  costs :=
      [ [("sapphires", 25000)],
        [("emeralds", 50000)],
        [("rubies", 25000)],
        [("sapphires", 200000)] ]

/-- `EVENT_CONFIG` of `config.py`: the Other Tower event. -/
def EVENT_CONFIG : Config where
  duration := EVENT_DURATION_HOURS * HOURS
  resources := ["sapphires", "emeralds", "rubies"]
  creatures := [fiona, jingles, ox, batilda, murkyMandy, patches]
  boosts := [sapphireBoost, emeraldBoost, rubyBoost, championSpeed, championDamage]

/-! ## Priority-list evaluator and search (`optimizer.py`)

The evaluator, hill climbing and the simulated-annealing skeleton are
embedded against the shipped `EVENT_CONFIG`, exactly as `optimizer.py`
imports it.  The only abstraction is randomness: `random.shuffle`, the
perturbation draws and the Boltzmann acceptance draw
`random.random() < exp(delta / (temp * max(current_score, 1e6)))` are
supplied by an oracle (`SAOracle`), since the float-valued `math.exp`
comparison is a stochastic choice with no exact rational form; the oracle
records which operator was drawn and whether the degradation was accepted.
Nothing proved below depends on the oracle's values. -/

/-- `STEP_MS` of `optimizer.py` (one decision tick per simulated minute). -/
def STEP_MS : ℚ := 60000

/-- The kind tag of an upgrade step (`'creature' | 'boost'`). -/
inductive Kind where
  | creature
  | boost
  deriving DecidableEq

/-- One `(kind, uid, display_name)` entry of the priority template. -/
structure UpgradeStep where
  kind : Kind
  uid : String
  name : String
  deriving DecidableEq

instance : Inhabited UpgradeStep := ⟨⟨Kind.creature, "", ""⟩⟩

/-- The `(kind, uid)` key of a step, as used by `_build_pos_map`. -/
abbrev Key := Kind × String

/-- The key of a step. -/
def stepKey (st : UpgradeStep) : Key := (st.kind, st.uid)

/-- `build_template`: all upgrade steps in configuration order; a
default-unlocked creature contributes `maxLevel - 1` steps, the others
`maxLevel`, and each boost `maxLevel`. -/
def buildTemplate : List UpgradeStep :=
  EVENT_CONFIG.creatures.flatMap (fun c =>
      List.replicate (if c.unlockedByDefault then c.maxLevel - 1 else c.maxLevel)
        { kind := Kind.creature, uid := c.id, name := c.name })
    ++ EVENT_CONFIG.boosts.flatMap (fun b =>
      List.replicate b.maxLevel { kind := Kind.boost, uid := b.id, name := b.name })

/-- The keys of `_build_pos_map(priority)` in Python-dict insertion order
(first occurrence in the priority list). -/
def insKeys (p : List UpgradeStep) : List Key :=
  p.foldl (fun acc st => if stepKey st ∈ acc then acc else acc ++ [stepKey st]) []

/-- `_build_pos_map(priority)[key]`: the ascending list of positions of the
key within the priority list. -/
def positionsOf (p : List UpgradeStep) (k : Key) : List Nat :=
  (List.range p.length).filter (fun i => stepKey (p.getD i default) = k)

/-- The current cost of a key (`get_creature_upgrade_cost` /
`get_boost_upgrade_cost` dispatch of the evaluator loop). -/
def costOfKey (s : SimState) (k : Key) : Option Cost :=
  match k.1 with
  | Kind.creature => get_creature_upgrade_cost EVENT_CONFIG s k.2
  | Kind.boost => get_boost_upgrade_cost EVENT_CONFIG s k.2

/-- One entry of the key scan of `simulate`: skip a fully purchased key, skip
a key that cannot beat the current best position (`if p >= best_pos`), and
select the key when its cost is truthy (`cost and ...`: a `None` or empty
cost dict is falsy) and affordable. -/
def scanStep (p : List UpgradeStep) (s : SimState) (cnt : Key → Nat)
    (best : Nat × Option Key) (k : Key) : Nat × Option Key :=
  let ps := positionsOf p k
  if ps.length ≤ cnt k then best
  else
    let pos := ps.getD (cnt k) 0
    if best.1 ≤ pos then best
    else
      match costOfKey s k with
      | none => best
      | some cl => if cl ≠ [] ∧ canAffordL s cl = true then (pos, some k) else best

/-- The full key scan of one decision tick (`for key, positions in
pos_map.items()`), starting from the sentinel `best_pos = len(priority)`. -/
def selectUpgrade (p : List UpgradeStep) (s : SimState) (cnt : Key → Nat) :
    Nat × Option Key :=
  (insKeys p).foldl (scanStep p s cnt) (p.length, none)

/-- Apply the selected purchase (`upgrade_creature` / `upgrade_boost`; the
returned boolean is discarded, as in the source). -/
def applyKey (k : Key) (s : SimState) : SimState :=
  match k.1 with
  | Kind.creature => (upgrade_creature EVENT_CONFIG k.2 s).2
  | Kind.boost => (upgrade_boost EVENT_CONFIG k.2 s).2

/-- The body of the `while not sim.is_done()` loop of `simulate`: purchase
the selected key (if any) and bump its pointer, then `advance(STEP_MS)`
whether or not a purchase occurred. -/
def decideStep (p : List UpgradeStep) (st : SimState × (Key → Nat)) :
    SimState × (Key → Nat) :=
  match (selectUpgrade p st.1 st.2).2 with
  | none => (advance EVENT_CONFIG STEP_MS st.1, st.2)
  | some k =>
      (advance EVENT_CONFIG STEP_MS (applyKey k st.1),
       Function.update st.2 k (st.2 k + 1))

/-- The decision loop, with fuel.  Each iteration adds exactly `STEP_MS` to
the elapsed time, so `864 = duration / STEP_MS` iterations reach `is_done`;
with `SIM_FUEL = 865` the loop below always exits through its `is_done`
test (proved in `simLoop_done`), never by fuel exhaustion, and therefore
agrees with the unbounded `while` loop of the source. -/
def simLoop (p : List UpgradeStep) :
    Nat → SimState × (Key → Nat) → SimState × (Key → Nat)
  | 0, st => st
  | fuel + 1, st =>
      if is_done EVENT_CONFIG st.1 then st else simLoop p fuel (decideStep p st)

/-- Fuel bound for the decision loop (one more than the 864 decision ticks
of the 51,840,000 ms event). -/
def SIM_FUEL : Nat := 865

/-- The initial evaluator state: a fresh `GameSim(EVENT_CONFIG)` and all
purchase counters zero. -/
def simInit : SimState × (Key → Nat) := (reset EVENT_CONFIG, fun _ => 0)

/-- `simulate(priority)`: total damage of the replayed event. -/
def simulate (p : List UpgradeStep) : ℚ :=
  (simLoop p SIM_FUEL simInit).1.total_damage

/-- One `{'time_h': …, 'action': …}` record of `simulate_with_log`. -/
structure LogEntry where
  time_h : ℚ
  action : String
  deriving DecidableEq

/-- `name_map` of `simulate_with_log`: the display name of a key (the last
occurrence wins, as in a Python dict comprehension). -/
def nameMap (p : List UpgradeStep) (k : Key) : String :=
  match p.reverse.find? (fun st => stepKey st = k) with
  | some st => st.name
  | none => ""

/-- The body of the `simulate_with_log` loop: identical to `decideStep` on
the simulation state and counters, plus the purchase record. -/
def decideStepLog (p : List UpgradeStep)
    (st : (SimState × (Key → Nat)) × List LogEntry) :
    (SimState × (Key → Nat)) × List LogEntry :=
  match (selectUpgrade p st.1.1 st.1.2).2 with
  | none => ((advance EVENT_CONFIG STEP_MS st.1.1, st.1.2), st.2)
  | some k =>
      let name := nameMap p k
      let t_h := st.1.1.time_elapsed_ms / 3600000
      let s1 := applyKey k st.1.1
      let label :=
        match k.1 with
        | Kind.creature =>
            let lv := s1.creature_levels k.2
            if lv = 1 then "Unlock " ++ name
            else "Upgrade " ++ name ++ " → Lv" ++ toString lv
        | Kind.boost => "Buy " ++ name ++ " Lv" ++ toString (s1.boost_levels k.2)
      ((advance EVENT_CONFIG STEP_MS s1, Function.update st.1.2 k (st.1.2 k + 1)),
       st.2 ++ [⟨t_h, label⟩])

/-- The `simulate_with_log` loop, with the same fuel discipline as `simLoop`. -/
def simLoopLog (p : List UpgradeStep) :
    Nat → (SimState × (Key → Nat)) × List LogEntry →
      (SimState × (Key → Nat)) × List LogEntry
  | 0, st => st
  | fuel + 1, st =>
      if is_done EVENT_CONFIG st.1.1 then st
      else simLoopLog p fuel (decideStepLog p st)

/-- `simulate_with_log(priority)`: total damage, purchase log, final state. -/
def simulate_with_log (p : List UpgradeStep) : ℚ × List LogEntry × SimState :=
  let r := simLoopLog p SIM_FUEL (simInit, [])
  (r.1.1.total_damage, r.2, r.1.1)

/-- `nbr[a], nbr[b] = nbr[b], nbr[a]` (the swap perturbation and the
hill-climb move). -/
def swapPos [Inhabited α] (l : List α) (i j : Nat) : List α :=
  (l.set i (l.getD j default)).set j (l.getD i default)

/-- `item = nbr.pop(a); nbr.insert(b, item)` (the relocate perturbation). -/
def relocate [Inhabited α] (l : List α) (a b : Nat) : List α :=
  (l.eraseIdx a).insertIdx b (l.getD a default)

/-- `b = min(a + length, n); nbr[a:b] = nbr[a:b][::-1]` (the slice-reversal
perturbation). -/
def revSlice (l : List α) (a len : Nat) : List α :=
  let b := min (a + len) l.length
  l.take a ++ ((l.drop a).take (b - a)).reverse ++ l.drop b

/-- One drawn perturbation of the annealing loop (operator plus indices). -/
inductive Perturb where
  | swap (a b : Nat)
  | reloc (a b : Nat)
  | rev (a len : Nat)
  deriving DecidableEq

/-- Apply a drawn perturbation to a copy of the current ordering. -/
def applyPerturb [Inhabited α] : Perturb → List α → List α
  | Perturb.swap a b, l => swapPos l a b
  | Perturb.reloc a b, l => relocate l a b
  | Perturb.rev a len, l => revSlice l a len

/-- The randomness of one annealing chain: the initial shuffle, the
perturbation drawn at each iteration, and the outcome of the Boltzmann
acceptance draw for a non-improving candidate. -/
structure SAOracle where
  shuffle : List UpgradeStep → List UpgradeStep
  perturb : Nat → Perturb
  acceptWorse : Nat → ℚ → Bool

/-- One iteration of the annealing loop of `simulated_annealing`: perturb a
copy of the current ordering, evaluate it, accept improvements always and
degradations per the Boltzmann draw, and track the best-ever ordering. -/
def saIter (o : SAOracle)
    (st : (List UpgradeStep × ℚ) × (List UpgradeStep × ℚ)) (i : Nat) :
    (List UpgradeStep × ℚ) × (List UpgradeStep × ℚ) :=
  let cur := st.1
  let best := st.2
  let nbr := applyPerturb (o.perturb i) cur.1
  let ns := simulate nbr
  let delta := ns - cur.2
  if 0 < delta ∨ o.acceptWorse i delta = true then
    ((nbr, ns), if best.2 < ns then (nbr, ns) else best)
  else st

/-- `simulated_annealing(n_iter)`: the initial solution is a shuffle of the
template; the loop runs `n_iter` iterations; the best-ever ordering and
score are returned.  Note: no validation of `n_iter` is performed. -/
def simulated_annealing (o : SAOracle) (n_iter : Nat) : List UpgradeStep × ℚ :=
  let current := o.shuffle buildTemplate
  let cs := simulate current
  ((List.range n_iter).foldl (saIter o) ((current, cs), (current, cs))).2

/-- The pairs `(i, j)` visited by the nested loops of `hill_climb`
(`for i in range(n): for j in range(i + 1, n)`). -/
def hcPairs (n : Nat) : List (Nat × Nat) :=
  (List.range n).flatMap (fun i => (List.range' (i + 1) (n - (i + 1))).map (fun j => (i, j)))

/-- The swap scan of `hill_climb`: track the single swap with the highest
strictly improving score (`if s > best_score`). -/
def hcScan (p : List UpgradeStep) (pr : List (Nat × Nat))
    (best : ℚ × Option (Nat × Nat)) : ℚ × Option (Nat × Nat) :=
  pr.foldl
    (fun best ij =>
      let s := simulate (swapPos p ij.1 ij.2)
      if best.1 < s then (s, some ij) else best)
    best

/-- `hill_climb(priority)`: evaluate every pairwise swap, apply the single
best improvement (if any) and report whether the ordering improved. -/
def hill_climb (p : List UpgradeStep) : List UpgradeStep × ℚ × Bool :=
  let base := simulate p
  let r := hcScan p (hcPairs p.length) (base, none)
  match r.2 with
  | some ij => (swapPos p ij.1 ij.2, r.1, true)
  | none => (p, base, false)

/-- The hill-climb pass loop of `optimize`: up to `passes` passes, stopping
at the first pass that reports no improvement. -/
def hillClimbPasses : Nat → List UpgradeStep × ℚ → List UpgradeStep × ℚ
  | 0, st => st
  | k + 1, st =>
      let r := hill_climb st.1
      if r.2.2 = true then hillClimbPasses k (r.1, r.2.1) else (r.1, r.2.1)

/-- `optimize(n_iter, n_restarts, hill_climb_passes)`: multi-restart
annealing (`for r in range(n_restarts)`, empty for a nonpositive count,
each restart with its own oracle for its own derived seed) keeping the
strictly best score over an initial `(None, 0.0)`, followed by the
hill-climb passes.  `hill_climb(None)` — which the source reaches when no
restart ever beat the initial score `0.0` — raises `TypeError` in Python
(`len(None)`), embedded as the `Except.error` branch.  Note: no validation
of `n_iter` or `n_restarts` is performed. -/
def optimize (oracles : Nat → SAOracle) (n_iter : Nat) (n_restarts : ℤ)
    (hc_passes : Nat) : Except String (Option (List UpgradeStep) × ℚ) :=
  let restartResult :=
    (List.range n_restarts.toNat).foldl
      (fun (gb : Option (List UpgradeStep) × ℚ) r =>
        let pr := simulated_annealing (oracles r) n_iter
        if gb.2 < pr.2 then (some pr.1, pr.2) else gb)
      (none, 0)
  match restartResult.1 with
  | none =>
      if hc_passes = 0 then Except.ok (none, restartResult.2)
      else Except.error "TypeError: object of type NoneType has no len()"
  | some b =>
      let r := hillClimbPasses hc_passes (b, restartResult.2)
      Except.ok (some r.1, r.2)

/-! ## Greedy baseline scoring (`evaluate.py`) -/

/-- The copy taken by `_score_upgrade` (`copy.copy(sim_orig)` followed by
duplicating the four mutable upgrade-facing dicts: `resources`,
`creature_levels`, `creature_unlocked`, `boost_levels`).  The progress
dict, the scalar fields and the configuration stay shared with the
original; duplication of a map is the identity on values, so what protects
the original is that the upgrade operations write only the duplicated
fields — proved for the shared fields in the claim-C10 theorem. -/
def scoreCopy (s : SimState) : SimState :=
  { resources := s.resources
    creature_levels := s.creature_levels
    creature_unlocked := s.creature_unlocked
    creature_progress := s.creature_progress
    boost_levels := s.boost_levels
    total_damage := s.total_damage
    time_elapsed_ms := s.time_elapsed_ms }

/-- The isolated what-if state of `_score_upgrade`: the shallow copy with its
four duplicated dicts (`scoreCopy`), with the hypothetical purchase applied
to it. -/
def hypotheticalSim (cfg : Config) (kind : Kind) (uid : String)
    (sim_orig : SimState) : SimState :=
  let sim2 := scoreCopy sim_orig
  match kind with
  | Kind.creature => (upgrade_creature cfg uid sim2).2
  | Kind.boost => (upgrade_boost cfg uid sim2).2

/-- `_score_upgrade(sim_orig, kind, uid, time_remaining_ms)`: the marginal
value `dps_gain * time_s / total_cost` of a hypothetical purchase applied
to the copy, or `None` when not purchasable or unaffordable
(`sum(cost.values()) or 1.0` guards a zero total cost). -/
def score_upgrade (cfg : Config) (kind : Kind) (uid : String)
    (time_remaining_ms : ℚ) (sim_orig : SimState) : Option ℚ :=
  let cost :=
    match kind with
    | Kind.creature => get_creature_upgrade_cost cfg sim_orig uid
    | Kind.boost => get_boost_upgrade_cost cfg sim_orig uid
  match cost with
  | none => none
  | some cl =>
      if canAffordL sim_orig cl = false then none
      else
        let current_dps := get_dps cfg sim_orig
        let sim2 := hypotheticalSim cfg kind uid sim_orig
        let dps_gain := get_dps cfg sim2 - current_dps
        let time_s := time_remaining_ms / 1000
        let total_cost := (cl.map (·.2)).sum
        some (dps_gain * time_s / (if total_cost = 0 then 1 else total_cost))

/-! ## Closed-form characterization of `advance` -/

/-- The tick count `int(progress / spawn_time)` a creature fires during one
`advance(δ)` call, as a function of the entry state. -/
def tickCount (sp δ : ℚ) (s : SimState) (c : CreatureDef) : ℤ :=
  pyInt ((s.creature_progress c.id + δ) / (c.spawnTime * sp))

/-- The per-tick production credited to a creature
(`productionByLevel[lv-1] + production bonus`). -/
def prodOf (cfg : Config) (s : SimState) (c : CreatureDef) : ℚ :=
  pyGet c.productionByLevel ((s.creature_levels c.id : ℤ) - 1) 0
    + get_production_bonus cfg s c.produces

/-- The per-tick damage credited to a creature
(`damageByLevel[lv-1] * damage multiplier`). -/
def dmgOf (dm : ℚ) (s : SimState) (c : CreatureDef) : ℚ :=
  pyGet c.damageByLevel ((s.creature_levels c.id : ℤ) - 1) 0 * dm

/-- The damage contribution of one creature within one `advance(δ)` call. -/
def dmgContrib (dm sp δ : ℚ) (s : SimState) (c : CreatureDef) : ℚ :=
  if isActive s c = true then dmgOf dm s c * (tickCount sp δ s c : ℚ) else 0

/-- The contribution of one creature to a resource balance within one
`advance(δ)` call. -/
def resContrib (cfg : Config) (sp δ : ℚ) (s : SimState) (c : CreatureDef)
    (r : String) : ℚ :=
  if isActive s c = true ∧ c.produces = r then
    prodOf cfg s c * (tickCount sp δ s c : ℚ)
  else 0

/-- The progress accumulator of one creature after one `advance(δ)` call. -/
def newProg (sp δ : ℚ) (s : SimState) (c : CreatureDef) : ℚ :=
  if isActive s c = true then
    if tickCount sp δ s c = 0 then s.creature_progress c.id + δ
    else s.creature_progress c.id + δ - (tickCount sp δ s c : ℚ) * (c.spawnTime * sp)
  else s.creature_progress c.id

theorem speedScan_congr {s1 s : SimState}
    (h : s1.boost_levels = s.boost_levels) :
    ∀ bl, speedScan s1 bl = speedScan s bl := by
  intro bl
  induction bl with
  | nil => rfl
  | cons b rest ih => simp only [speedScan, h, ih]

theorem damageScan_congr {s1 s : SimState}
    (h : s1.boost_levels = s.boost_levels) :
    ∀ bl, damageScan s1 bl = damageScan s bl := by
  intro bl
  induction bl with
  | nil => rfl
  | cons b rest ih => simp only [damageScan, h, ih]

theorem productionScan_congr {s1 s : SimState}
    (h : s1.boost_levels = s.boost_levels) (rid : String) :
    ∀ bl, productionScan s1 rid bl = productionScan s rid bl := by
  intro bl
  induction bl with
  | nil => rfl
  | cons b rest ih => simp only [productionScan, h, ih]

/-- What one pass of the creature-loop body does, phrased against its entry
state: the levels, flags, boost levels and clock are untouched; damage,
the produced resource and the creature's own progress move by the
closed-form contributions; every other progress accumulator is untouched. -/
theorem advanceCreature_spec (cfg : Config) (sp dm δ : ℚ) (s : SimState)
    (c : CreatureDef) :
    (advanceCreature cfg sp dm δ s c).creature_levels = s.creature_levels ∧
    (advanceCreature cfg sp dm δ s c).creature_unlocked = s.creature_unlocked ∧
    (advanceCreature cfg sp dm δ s c).boost_levels = s.boost_levels ∧
    (advanceCreature cfg sp dm δ s c).time_elapsed_ms = s.time_elapsed_ms ∧
    (advanceCreature cfg sp dm δ s c).total_damage
      = s.total_damage + dmgContrib dm sp δ s c ∧
    (∀ r, (advanceCreature cfg sp dm δ s c).resources r
      = s.resources r + resContrib cfg sp δ s c r) ∧
    (advanceCreature cfg sp dm δ s c).creature_progress c.id = newProg sp δ s c ∧
    (∀ x, x ≠ c.id →
      (advanceCreature cfg sp dm δ s c).creature_progress x
        = s.creature_progress x) := by
  by_cases hact : isActive s c = true
  · by_cases ht : tickCount sp δ s c = 0
    · have hbody : advanceCreature cfg sp dm δ s c =
          { s with creature_progress :=
              (Function.update s.creature_progress c.id
                (s.creature_progress c.id + δ)) } := by
        simp only [advanceCreature, hact, if_true, tickCount] at ht ⊢
        simp [ht]
      refine ⟨by simp [hbody], by simp [hbody], by simp [hbody], by simp [hbody],
        ?_, ?_, ?_, ?_⟩
      · simp [hbody, dmgContrib, hact, ht]
      · intro r
        simp [hbody, resContrib, hact, ht]
      · simp [hbody, newProg, hact, ht]
      · intro x hx
        simp [hbody, Function.update, hx]
    · have hbody : advanceCreature cfg sp dm δ s c =
          { s with
            creature_progress :=
              (Function.update s.creature_progress c.id
                (s.creature_progress c.id + δ
                  - (tickCount sp δ s c : ℚ) * (c.spawnTime * sp)))
            resources :=
              (Function.update s.resources c.produces
                (s.resources c.produces + prodOf cfg s c * (tickCount sp δ s c : ℚ)))
            total_damage :=
              (s.total_damage + dmgOf dm s c * (tickCount sp δ s c : ℚ)) } := by
        simp only [advanceCreature, hact, if_true, tickCount, prodOf, dmgOf] at ht ⊢
        simp [ht]
      refine ⟨by simp [hbody], by simp [hbody], by simp [hbody], by simp [hbody],
        ?_, ?_, ?_, ?_⟩
      · simp [hbody, dmgContrib, hact]
      · intro r
        by_cases hr : c.produces = r
        · subst hr
          simp [hbody, resContrib, hact]
        · have hr2 : r ≠ c.produces := fun h => hr h.symm
          simp [hbody, resContrib, hact, hr, Function.update_noteq hr2]
      · simp [hbody, newProg, hact, ht]
      · intro x hx
        simp [hbody, Function.update, hx]
  · have hbody : advanceCreature cfg sp dm δ s c = s := by
      simp [advanceCreature, hact]
    simp [hbody, dmgContrib, resContrib, newProg, hact]

theorem contrib_congr (cfg : Config) (sp dm δ : ℚ) {s1 s : SimState}
    (c : CreatureDef)
    (hlv : s1.creature_levels = s.creature_levels)
    (hun : s1.creature_unlocked = s.creature_unlocked)
    (hb : s1.boost_levels = s.boost_levels)
    (hp : s1.creature_progress c.id = s.creature_progress c.id) :
    dmgContrib dm sp δ s1 c = dmgContrib dm sp δ s c ∧
    (∀ r, resContrib cfg sp δ s1 c r = resContrib cfg sp δ s c r) ∧
    newProg sp δ s1 c = newProg sp δ s c := by
  have hact : isActive s1 c = isActive s c := by simp [isActive, hlv, hun]
  have htick : tickCount sp δ s1 c = tickCount sp δ s c := by simp [tickCount, hp]
  have hprod : prodOf cfg s1 c = prodOf cfg s c := by
    simp [prodOf, hlv, get_production_bonus, productionScan_congr hb]
  have hdmg : dmgOf dm s1 c = dmgOf dm s c := by simp [dmgOf, hlv]
  refine ⟨by simp [dmgContrib, hact, htick, hdmg], fun r => ?_,
    by simp [newProg, hact, htick, hp]⟩
  simp [resContrib, hact, htick, hprod]

/-- What the whole creature loop of `advance` does when the creature ids are
distinct (they are in the shipped configuration): every contribution is a
function of the loop's entry state, i.e. the creatures are processed
independently within the same call. -/
theorem advFold_spec (cfg : Config) (sp dm δ : ℚ) :
    ∀ (L : List CreatureDef), (L.map (fun c => c.id)).Nodup → ∀ (s : SimState),
      (L.foldl (advanceCreature cfg sp dm δ) s).creature_levels = s.creature_levels ∧
      (L.foldl (advanceCreature cfg sp dm δ) s).creature_unlocked = s.creature_unlocked ∧
      (L.foldl (advanceCreature cfg sp dm δ) s).boost_levels = s.boost_levels ∧
      (L.foldl (advanceCreature cfg sp dm δ) s).time_elapsed_ms = s.time_elapsed_ms ∧
      (L.foldl (advanceCreature cfg sp dm δ) s).total_damage
        = s.total_damage + (L.map (dmgContrib dm sp δ s)).sum ∧
      (∀ r, (L.foldl (advanceCreature cfg sp dm δ) s).resources r
        = s.resources r + (L.map (fun c => resContrib cfg sp δ s c r)).sum) ∧
      (∀ c ∈ L, (L.foldl (advanceCreature cfg sp dm δ) s).creature_progress c.id
        = newProg sp δ s c) ∧
      (∀ x, x ∉ L.map (fun c => c.id) →
        (L.foldl (advanceCreature cfg sp dm δ) s).creature_progress x
          = s.creature_progress x) := by
  intro L
  induction L with
  | nil => intro _ s; simp
  | cons c L' ih =>
      intro hnd s
      have hnd' : (L'.map (fun c => c.id)).Nodup := (List.nodup_cons.mp hnd).2
      have hcid : c.id ∉ L'.map (fun c => c.id) := (List.nodup_cons.mp hnd).1
      have hne : ∀ c' ∈ L', c'.id ≠ c.id := by
        intro c' hc' h
        exact hcid (h ▸ List.mem_map_of_mem (fun c => c.id) hc')
      obtain ⟨h1lv, h1un, h1b, h1t, h1d, h1r, h1pc, h1px⟩ :=
        advanceCreature_spec cfg sp dm δ s c
      set s1 := advanceCreature cfg sp dm δ s c with hs1
      obtain ⟨hlv, hun, hb, ht, hd, hr, hpc, hpx⟩ := ih hnd' s1
      have hcongr : ∀ c' ∈ L',
          dmgContrib dm sp δ s1 c' = dmgContrib dm sp δ s c' ∧
          (∀ r, resContrib cfg sp δ s1 c' r = resContrib cfg sp δ s c' r) ∧
          newProg sp δ s1 c' = newProg sp δ s c' := by
        intro c' hc'
        exact contrib_congr cfg sp dm δ c' h1lv h1un h1b (h1px c'.id (hne c' hc'))
      have hfold : (c :: L').foldl (advanceCreature cfg sp dm δ) s
          = L'.foldl (advanceCreature cfg sp dm δ) s1 := rfl
      refine ⟨?_, ?_, ?_, ?_, ?_, ?_, ?_, ?_⟩
      · rw [hfold, hlv, h1lv]
      · rw [hfold, hun, h1un]
      · rw [hfold, hb, h1b]
      · rw [hfold, ht, h1t]
      · rw [hfold, hd, h1d]
        have : L'.map (dmgContrib dm sp δ s1) = L'.map (dmgContrib dm sp δ s) :=
          List.map_congr_left (fun c' hc' => (hcongr c' hc').1)
        rw [this, List.map_cons, List.sum_cons]
        ring
      · intro r
        rw [hfold, hr r, h1r r]
        have : (L'.map (fun c' => resContrib cfg sp δ s1 c' r))
            = L'.map (fun c' => resContrib cfg sp δ s c' r) :=
          List.map_congr_left (fun c' hc' => (hcongr c' hc').2.1 r)
        rw [this, List.map_cons, List.sum_cons]
        ring
      · intro c' hc'
        rcases List.mem_cons.mp hc' with hceq | hmem
        · subst hceq
          rw [hfold, hpx c'.id (by
            intro hmem2
            rcases List.mem_map.mp hmem2 with ⟨c2, hc2, hid⟩
            exact hne c2 hc2 hid), h1pc]
        · rw [hfold, hpc c' hmem, (hcongr c' hmem).2.2]
      · intro x hx
        have hx1 : x ∉ L'.map (fun c => c.id) := by
          intro hmem
          exact hx (by simpa [List.map_cons] using List.mem_cons_of_mem c.id hmem)
        have hxc : x ≠ c.id := by
          intro h
          exact hx (by simp [List.map_cons, h])
        rw [hfold, hpx x hx1, h1px x hxc]

/-- `advance` in closed form (distinct creature ids): elapsed time moves by
`δ` unconditionally; levels, flags and boost levels are untouched; damage
and resources move by the per-creature contributions computed from the
entry state; each active creature's progress follows `newProg`. -/
theorem advance_spec (cfg : Config) (δ : ℚ) (s : SimState)
    (hnd : (cfg.creatures.map (fun c => c.id)).Nodup) :
    (advance cfg δ s).time_elapsed_ms = s.time_elapsed_ms + δ ∧
    (advance cfg δ s).creature_levels = s.creature_levels ∧
    (advance cfg δ s).creature_unlocked = s.creature_unlocked ∧
    (advance cfg δ s).boost_levels = s.boost_levels ∧
    (advance cfg δ s).total_damage = s.total_damage
      + (cfg.creatures.map
          (dmgContrib (get_damage_multiplier cfg s) (get_speed_multiplier cfg s) δ s)).sum ∧
    (∀ r, (advance cfg δ s).resources r = s.resources r
      + (cfg.creatures.map
          (fun c => resContrib cfg (get_speed_multiplier cfg s) δ s c r)).sum) ∧
    (∀ c ∈ cfg.creatures, (advance cfg δ s).creature_progress c.id
      = newProg (get_speed_multiplier cfg s) δ s c) ∧
    (∀ x, x ∉ cfg.creatures.map (fun c => c.id) →
      (advance cfg δ s).creature_progress x = s.creature_progress x) := by
  obtain ⟨hlv, hun, hb, ht, hd, hr, hpc, hpx⟩ :=
    advFold_spec cfg (get_speed_multiplier cfg s) (get_damage_multiplier cfg s) δ
      cfg.creatures hnd s
  unfold advance
  exact ⟨by simp [ht], by simpa using hlv, by simpa using hun, by simpa using hb,
    by simpa using hd, by simpa using hr, by simpa using hpc, by simpa using hpx⟩

theorem pyInt_of_nonneg {q : ℚ} (h : 0 ≤ q) : pyInt q = ⌊q⌋ := by
  simp [pyInt, h]

/-- **C1.** A call to `advance(deltaMs)` processes each unlocked, level ≥ 1
unit independently within the same call, against the state at entry: it adds
`deltaMs` to the unit's progress accumulator, computes
`ticks = floor(progress / (spawnTime × speed multiplier))` (the source's
`int(...)` agrees with `floor` whenever the quotient is nonnegative), and
when `ticks ≠ 0` subtracts `ticks × effectiveInterval` from the
accumulator, adds `(productionByLevel[level-1] + production bonus) × ticks`
to the produced resource's balance and
`damageByLevel[level-1] × damage multiplier × ticks` to cumulative damage
(`dmgContrib`/`resContrib` are exactly those per-unit products, zero for an
inactive unit); elapsed time increases by `deltaMs` unconditionally, even
when no unit ticks. -/
theorem claim_C1_advance (cfg : Config) (δ : ℚ) (s : SimState)
    (hnd : (cfg.creatures.map (fun c => c.id)).Nodup) :
    (advance cfg δ s).time_elapsed_ms = s.time_elapsed_ms + δ ∧
    (∀ c ∈ cfg.creatures,
      s.creature_unlocked c.id = true → 1 ≤ s.creature_levels c.id →
        (advance cfg δ s).creature_progress c.id =
          (if tickCount (get_speed_multiplier cfg s) δ s c = 0 then
            s.creature_progress c.id + δ
          else
            s.creature_progress c.id + δ
              - (tickCount (get_speed_multiplier cfg s) δ s c : ℚ)
                  * (c.spawnTime * get_speed_multiplier cfg s))) ∧
    (∀ c, 0 ≤ (s.creature_progress c.id + δ) / (c.spawnTime * get_speed_multiplier cfg s) →
      tickCount (get_speed_multiplier cfg s) δ s c
        = ⌊(s.creature_progress c.id + δ) / (c.spawnTime * get_speed_multiplier cfg s)⌋) ∧
    (advance cfg δ s).total_damage = s.total_damage
      + (cfg.creatures.map
          (dmgContrib (get_damage_multiplier cfg s) (get_speed_multiplier cfg s) δ s)).sum ∧
    (∀ r, (advance cfg δ s).resources r = s.resources r
      + (cfg.creatures.map
          (fun c => resContrib cfg (get_speed_multiplier cfg s) δ s c r)).sum) := by
  obtain ⟨ht, _, hun, _, hd, hr, hpc, _⟩ := advance_spec cfg δ s hnd
  refine ⟨ht, ?_, ?_, hd, hr⟩
  · intro c hc hcu hlv
    have hact : isActive s c = true := by
      simp [isActive, hcu]
      omega
    rw [hpc c hc, newProg, if_pos hact]
  · intro c hq
    exact pyInt_of_nonneg hq

/-- Witness for C1 at the shipped configuration, one second of play from the
initial state. -/
theorem claim_C1_advance_witness :
    (advance EVENT_CONFIG 1000 (reset EVENT_CONFIG)).time_elapsed_ms
        = (reset EVENT_CONFIG).time_elapsed_ms + 1000 ∧
    (∀ c ∈ EVENT_CONFIG.creatures,
      (reset EVENT_CONFIG).creature_unlocked c.id = true →
        1 ≤ (reset EVENT_CONFIG).creature_levels c.id →
        (advance EVENT_CONFIG 1000 (reset EVENT_CONFIG)).creature_progress c.id =
          (if tickCount (get_speed_multiplier EVENT_CONFIG (reset EVENT_CONFIG)) 1000
                (reset EVENT_CONFIG) c = 0 then
            (reset EVENT_CONFIG).creature_progress c.id + 1000
          else
            (reset EVENT_CONFIG).creature_progress c.id + 1000
              - (tickCount (get_speed_multiplier EVENT_CONFIG (reset EVENT_CONFIG)) 1000
                    (reset EVENT_CONFIG) c : ℚ)
                  * (c.spawnTime * get_speed_multiplier EVENT_CONFIG (reset EVENT_CONFIG)))) ∧
    (∀ c, 0 ≤ ((reset EVENT_CONFIG).creature_progress c.id + 1000)
            / (c.spawnTime * get_speed_multiplier EVENT_CONFIG (reset EVENT_CONFIG)) →
      tickCount (get_speed_multiplier EVENT_CONFIG (reset EVENT_CONFIG)) 1000
          (reset EVENT_CONFIG) c
        = ⌊((reset EVENT_CONFIG).creature_progress c.id + 1000)
            / (c.spawnTime * get_speed_multiplier EVENT_CONFIG (reset EVENT_CONFIG))⌋) ∧
    (advance EVENT_CONFIG 1000 (reset EVENT_CONFIG)).total_damage
      = (reset EVENT_CONFIG).total_damage
        + (EVENT_CONFIG.creatures.map
            (dmgContrib (get_damage_multiplier EVENT_CONFIG (reset EVENT_CONFIG))
              (get_speed_multiplier EVENT_CONFIG (reset EVENT_CONFIG)) 1000
              (reset EVENT_CONFIG))).sum ∧
    (∀ r, (advance EVENT_CONFIG 1000 (reset EVENT_CONFIG)).resources r
      = (reset EVENT_CONFIG).resources r
        + (EVENT_CONFIG.creatures.map
            (fun c => resContrib EVENT_CONFIG
              (get_speed_multiplier EVENT_CONFIG (reset EVENT_CONFIG)) 1000
              (reset EVENT_CONFIG) c r)).sum) :=
  claim_C1_advance EVENT_CONFIG 1000 (reset EVENT_CONFIG) (by decide)

theorem spendFold (cl : Cost) :
    ∀ (f : String → ℚ) (r : String),
      (cl.foldl (fun f p => Function.update f p.1 (f p.1 - p.2)) f) r
        = f r - ((cl.filter (fun p => p.1 = r)).map (fun p => p.2)).sum := by
  induction cl with
  | nil => simp
  | cons p t ih =>
      intro f r
      simp only [List.foldl_cons]
      rw [ih]
      by_cases hr : p.1 = r
      · subst hr
        simp only [List.filter_cons, decide_True, if_true, List.map_cons,
          List.sum_cons, Function.update_same]
        ring
      · simp only [List.filter_cons]
        rw [Function.update_noteq (fun h => hr h.symm)]
        simp [hr]

theorem spend_resources (cl : Cost) (s : SimState) (r : String) :
    (spend cl s).resources r
      = s.resources r - ((cl.filter (fun p => p.1 = r)).map (fun p => p.2)).sum :=
  spendFold cl s.resources r

/-- **C2.** `upgrade_creature` / `upgrade_boost`: when the current cost is
"not purchasable" (`None`) or unaffordable, the call returns `false` and
leaves the entire state unchanged; otherwise it returns `true`, debits every
resource listed in the cost (and only those), and — for a creature not yet
unlocked — sets `unlocked = true` and `level = 1`, else increments the level
by one (for a boost, increments the boost level by one); all other parts of
the state (progress, damage, clock, the other id's levels) are untouched. -/
theorem claim_C2_upgrade (cfg : Config) (s : SimState) :
    (∀ cid,
      (get_creature_upgrade_cost cfg s cid = none
        ∨ can_afford s (get_creature_upgrade_cost cfg s cid) = false) →
      upgrade_creature cfg cid s = (false, s)) ∧
    (∀ cid cl, get_creature_upgrade_cost cfg s cid = some cl →
      can_afford s (get_creature_upgrade_cost cfg s cid) = true →
      (upgrade_creature cfg cid s).1 = true ∧
      (∀ r, (upgrade_creature cfg cid s).2.resources r
        = s.resources r - ((cl.filter (fun p => p.1 = r)).map (fun p => p.2)).sum) ∧
      (s.creature_unlocked cid = false →
        (upgrade_creature cfg cid s).2.creature_unlocked cid = true ∧
        (upgrade_creature cfg cid s).2.creature_levels cid = 1) ∧
      (s.creature_unlocked cid = true →
        (upgrade_creature cfg cid s).2.creature_levels cid
          = s.creature_levels cid + 1 ∧
        (upgrade_creature cfg cid s).2.creature_unlocked = s.creature_unlocked) ∧
      (∀ x, x ≠ cid →
        (upgrade_creature cfg cid s).2.creature_levels x = s.creature_levels x ∧
        (upgrade_creature cfg cid s).2.creature_unlocked x = s.creature_unlocked x) ∧
      (upgrade_creature cfg cid s).2.creature_progress = s.creature_progress ∧
      (upgrade_creature cfg cid s).2.boost_levels = s.boost_levels ∧
      (upgrade_creature cfg cid s).2.total_damage = s.total_damage ∧
      (upgrade_creature cfg cid s).2.time_elapsed_ms = s.time_elapsed_ms) ∧
    (∀ bid,
      (get_boost_upgrade_cost cfg s bid = none
        ∨ can_afford s (get_boost_upgrade_cost cfg s bid) = false) →
      upgrade_boost cfg bid s = (false, s)) ∧
    (∀ bid cl, get_boost_upgrade_cost cfg s bid = some cl →
      can_afford s (get_boost_upgrade_cost cfg s bid) = true →
      (upgrade_boost cfg bid s).1 = true ∧
      (∀ r, (upgrade_boost cfg bid s).2.resources r
        = s.resources r - ((cl.filter (fun p => p.1 = r)).map (fun p => p.2)).sum) ∧
      (upgrade_boost cfg bid s).2.boost_levels bid = s.boost_levels bid + 1 ∧
      (∀ y, y ≠ bid →
        (upgrade_boost cfg bid s).2.boost_levels y = s.boost_levels y) ∧
      (upgrade_boost cfg bid s).2.creature_levels = s.creature_levels ∧
      (upgrade_boost cfg bid s).2.creature_unlocked = s.creature_unlocked ∧
      (upgrade_boost cfg bid s).2.creature_progress = s.creature_progress ∧
      (upgrade_boost cfg bid s).2.total_damage = s.total_damage ∧
      (upgrade_boost cfg bid s).2.time_elapsed_ms = s.time_elapsed_ms) := by
  refine ⟨?_, ?_, ?_, ?_⟩
  · intro cid h
    rcases h with h | h
    · simp [upgrade_creature, h]
    · cases hc : get_creature_upgrade_cost cfg s cid with
      | none => simp [upgrade_creature, hc]
      | some cl =>
          rw [hc] at h
          simp only [can_afford] at h
          simp [upgrade_creature, hc, h]
  · intro cid cl hc haff
    rw [hc] at haff
    simp only [can_afford] at haff
    by_cases hu : s.creature_unlocked cid = false
    · have hbody : upgrade_creature cfg cid s =
          (true, { spend cl s with
            creature_unlocked := (Function.update (spend cl s).creature_unlocked cid true)
            creature_levels := (Function.update (spend cl s).creature_levels cid 1) }) := by
        simp [upgrade_creature, hc, haff, hu]
      refine ⟨by simp [hbody], ?_, ?_, ?_, ?_, by simp [hbody, spend],
        by simp [hbody, spend], by simp [hbody, spend], by simp [hbody, spend]⟩
      · intro r
        rw [hbody]
        exact spend_resources cl s r
      · intro _
        simp [hbody, spend]
      · intro hu2
        rw [hu2] at hu
        simp at hu
      · intro x hx
        simp [hbody, spend, Function.update_noteq hx]
    · have hu2 : s.creature_unlocked cid = true := by
        revert hu
        cases s.creature_unlocked cid <;> simp
      have hbody : upgrade_creature cfg cid s =
          (true, { spend cl s with
            creature_levels :=
              (Function.update (spend cl s).creature_levels cid
                (s.creature_levels cid + 1)) }) := by
        simp [upgrade_creature, hc, haff, hu2]
      refine ⟨by simp [hbody], ?_, ?_, ?_, ?_, by simp [hbody, spend],
        by simp [hbody, spend], by simp [hbody, spend], by simp [hbody, spend]⟩
      · intro r
        rw [hbody]
        exact spend_resources cl s r
      · intro hcontr
        rw [hcontr] at hu2
        simp at hu2
      · intro _
        exact ⟨by simp [hbody, spend], by simp [hbody, spend]⟩
      · intro x hx
        simp [hbody, spend, Function.update_noteq hx]
  · intro bid h
    rcases h with h | h
    · simp [upgrade_boost, h]
    · cases hb : get_boost_upgrade_cost cfg s bid with
      | none => simp [upgrade_boost, hb]
      | some cl =>
          rw [hb] at h
          simp only [can_afford] at h
          simp [upgrade_boost, hb, h]
  · intro bid cl hb haff
    rw [hb] at haff
    simp only [can_afford] at haff
    have hbody : upgrade_boost cfg bid s =
        (true, { spend cl s with
          boost_levels :=
            (Function.update (spend cl s).boost_levels bid (s.boost_levels bid + 1)) }) := by
      simp [upgrade_boost, hb, haff]
    refine ⟨by simp [hbody], ?_, by simp [hbody, spend], ?_,
      by simp [hbody, spend], by simp [hbody, spend], by simp [hbody, spend],
      by simp [hbody, spend], by simp [hbody, spend]⟩
    · intro r
      rw [hbody]
      exact spend_resources cl s r
    · intro y hy
      simp [hbody, spend, Function.update_noteq hy]

/-! ## Well-formedness of a configuration and the reachable-state invariant -/

theorem pyGet_mem_or (l : List α) (i : ℤ) (d : α) :
    pyGet l i d = d ∨ pyGet l i d ∈ l := by
  unfold pyGet
  split
  · rcases h : l.get? i.toNat with _ | x
    · left
      rw [List.getD_eq_getElem?_getD, ← List.get?_eq_getElem?, h]
      rfl
    · right
      have : l.getD i.toNat d = x := by
        rw [List.getD_eq_getElem?_getD, ← List.get?_eq_getElem?, h]
        rfl
      rw [this]
      exact List.get?_mem h
  · rcases h : l.get? (l.length - (-i).toNat) with _ | x
    · left
      rw [List.getD_eq_getElem?_getD, ← List.get?_eq_getElem?, h]
      rfl
    · right
      have : l.getD (l.length - (-i).toNat) d = x := by
        rw [List.getD_eq_getElem?_getD, ← List.get?_eq_getElem?, h]
        rfl
      rw [this]
      exact List.get?_mem h

/-- The load-time sanity conditions the simulation relies on, all of which
the shipped `EVENT_CONFIG` satisfies (by `decide`): distinct ids, positive
base spawn intervals, at least one level per creature, nonnegative
production tables, production bonuses nonnegative, speed bonuses below 1,
and duplicate-free cost dicts. -/
def WFConfig (cfg : Config) : Prop :=
  (cfg.creatures.map (fun c => c.id)).Nodup ∧
  (cfg.boosts.map (fun b => b.id)).Nodup ∧
  (∀ c ∈ cfg.creatures,
    1 ≤ c.maxLevel ∧ 0 < c.spawnTime ∧
    (∀ q ∈ c.productionByLevel, 0 ≤ q) ∧
    (∀ cl ∈ c.upgradeCosts, (costKeys cl).Nodup) ∧
    (∀ cl, c.unlockCost = some cl → (costKeys cl).Nodup)) ∧
  (∀ b ∈ cfg.boosts,
    (∀ cl ∈ b.costs, (costKeys cl).Nodup) ∧
    (b.btype = BoostType.speed → ∀ q ∈ b.bonusByLevel, q < 1) ∧
    (b.btype = BoostType.production → ∀ q ∈ b.bonusByLevel, 0 ≤ q))

instance (cfg : Config) : Decidable (WFConfig cfg) := by
  unfold WFConfig
  infer_instance

theorem wf_EVENT_CONFIG : WFConfig EVENT_CONFIG := by
  refine ⟨by decide, by decide, ?_, ?_⟩
  · intro c hc
    simp only [EVENT_CONFIG] at hc
    fin_cases hc <;>
      simp only [fiona, jingles, ox, batilda, murkyMandy, patches] <;>
      exact ⟨by norm_num, by norm_num [TIME_FACTOR], by intro q hq; fin_cases hq <;> norm_num,
        by decide, by decide⟩
  · intro b hb
    simp only [EVENT_CONFIG] at hb
    fin_cases hb <;>
      simp only [sapphireBoost, emeraldBoost, rubyBoost, championSpeed, championDamage] <;>
      refine ⟨by decide, ?_, ?_⟩ <;>
        first
          | (intro h; exact absurd h (by decide))
          | (intro _ q hq; fin_cases hq <;> norm_num)

/-- Under well-formedness the speed multiplier is strictly positive for
every state, whatever the boost levels: every speed bonus entry is `< 1`
and the out-of-range default is `0`. -/
theorem speedScan_pos (s : SimState) :
    ∀ bl : List BoostDef,
      (∀ b ∈ bl, b.btype = BoostType.speed → ∀ q ∈ b.bonusByLevel, q < 1) →
      0 < speedScan s bl := by
  intro bl
  induction bl with
  | nil => intro _; norm_num [speedScan]
  | cons b rest ih =>
      intro h
      rw [speedScan]
      split
      · next hcond =>
          have hb : ∀ q ∈ b.bonusByLevel, q < 1 :=
            h b (List.mem_cons_self b rest) hcond.1
          rcases pyGet_mem_or b.bonusByLevel ((s.boost_levels b.id : ℤ) - 1) 0 with
            hd | hm
          · rw [hd]; norm_num
          · have := hb _ hm
            linarith
      · exact ih (fun b2 hb2 => h b2 (List.mem_cons_of_mem b hb2))

theorem get_speed_multiplier_pos (cfg : Config) (s : SimState)
    (hwf : WFConfig cfg) : 0 < get_speed_multiplier cfg s :=
  speedScan_pos s cfg.boosts (fun b hb hsp => (hwf.2.2.2 b hb).2.1 hsp)

/-- Under well-formedness the production bonus is nonnegative for every
state. -/
theorem productionScan_nonneg (s : SimState) (rid : String) :
    ∀ bl : List BoostDef,
      (∀ b ∈ bl, b.btype = BoostType.production → ∀ q ∈ b.bonusByLevel, 0 ≤ q) →
      0 ≤ productionScan s rid bl := by
  intro bl
  induction bl with
  | nil => intro _; norm_num [productionScan]
  | cons b rest ih =>
      intro h
      rw [productionScan]
      split
      · next hcond =>
          have hb : ∀ q ∈ b.bonusByLevel, 0 ≤ q :=
            h b (List.mem_cons_self b rest) hcond.1
          rcases pyGet_mem_or b.bonusByLevel ((s.boost_levels b.id : ℤ) - 1) 0 with
            hd | hm
          · rw [hd]
          · exact hb _ hm
      · exact ih (fun b2 hb2 => h b2 (List.mem_cons_of_mem b hb2))

theorem get_production_bonus_nonneg (cfg : Config) (s : SimState) (rid : String)
    (hwf : WFConfig cfg) : 0 ≤ get_production_bonus cfg s rid :=
  productionScan_nonneg s rid cfg.boosts (fun b hb hp => (hwf.2.2.2 b hb).2.2 hp)

/-- The state invariant of the specification: nonnegative balances and
progress, levels within their definitions' bounds, and the unlock flag
tracking `level ≥ 1`. -/
def SimInv (cfg : Config) (s : SimState) : Prop :=
  (∀ r, 0 ≤ s.resources r) ∧
  (∀ x, 0 ≤ s.creature_progress x) ∧
  (∀ c ∈ cfg.creatures, s.creature_levels c.id ≤ c.maxLevel) ∧
  (∀ c ∈ cfg.creatures, (s.creature_unlocked c.id = true ↔ 1 ≤ s.creature_levels c.id)) ∧
  (∀ b ∈ cfg.boosts, s.boost_levels b.id ≤ b.maxLevel)

theorem find?_key_self {α : Type} (key : α → String) :
    ∀ (l : List α), (l.map key).Nodup → ∀ a ∈ l, ∀ cid, key a = cid →
      l.find? (fun x => key x = cid) = some a := by
  intro l
  induction l with
  | nil => simp
  | cons x t ih =>
      intro hnd a ha cid hcid
      rcases List.mem_cons.mp ha with rfl | hat
      · exact List.find?_cons_of_pos t (by simp [hcid])
      · have hx : ¬ key x = cid := by
          intro h
          exact (List.nodup_cons.mp hnd).1
            ((h.trans hcid.symm) ▸ List.mem_map_of_mem key hat)
        rw [List.find?_cons_of_neg t (by simpa using hx)]
        exact ih (List.nodup_cons.mp hnd).2 a hat cid hcid

theorem findCreature_self {cfg : Config}
    (hnd : (cfg.creatures.map (fun c => c.id)).Nodup)
    {c : CreatureDef} (hc : c ∈ cfg.creatures) :
    findCreature cfg c.id = some c := by
  show cfg.creatures.find? (fun c2 => c2.id = c.id) = some c
  exact find?_key_self (fun c => c.id) cfg.creatures hnd c hc c.id rfl

theorem findBoost_self {cfg : Config}
    (hnd : (cfg.boosts.map (fun b => b.id)).Nodup)
    {b : BoostDef} (hb : b ∈ cfg.boosts) :
    findBoost cfg b.id = some b := by
  show cfg.boosts.find? (fun b2 => b2.id = b.id) = some b
  exact find?_key_self (fun b => b.id) cfg.boosts hnd b hb b.id rfl

theorem filter_key_single :
    ∀ (cl : Cost), (costKeys cl).Nodup → ∀ r ∈ costKeys cl,
      ∃ a, cl.filter (fun p => p.1 = r) = [(r, a)] ∧ (r, a) ∈ cl := by
  intro cl
  induction cl with
  | nil => simp [costKeys]
  | cons p t ih =>
      intro hnd r hr
      have hnd2 : (p.1 :: costKeys t).Nodup := by simpa [costKeys] using hnd
      by_cases hp : p.1 = r
      · subst hp
        have hnotin : p.1 ∉ costKeys t := (List.nodup_cons.mp hnd2).1
        have hfilters : t.filter (fun q => q.1 = p.1) = [] := by
          rw [List.filter_eq_nil_iff]
          intro q hq
          simp only [decide_eq_true_eq]
          intro h
          exact hnotin (h ▸ List.mem_map_of_mem (fun p => p.1) hq)
        refine ⟨p.2, ?_, List.mem_cons.mpr (Or.inl rfl)⟩
        rw [List.filter_cons, if_pos (by simp), hfilters]
      · have hrt : r ∈ costKeys t := by
          rcases List.mem_cons.mp (show r ∈ p.1 :: costKeys t by
            simpa [costKeys] using hr) with h | h
          · exact absurd h.symm hp
          · exact h
        obtain ⟨a, hfil, hmem⟩ := ih (List.nodup_cons.mp hnd2).2 r hrt
        exact ⟨a, by rw [List.filter_cons, if_neg (by simp [hp]), hfil],
          List.mem_cons_of_mem p hmem⟩

theorem canAffordL_spec {s : SimState} {cl : Cost} (h : canAffordL s cl = true) :
    ∀ p ∈ cl, p.2 ≤ s.resources p.1 := by
  intro p hp
  have := List.all_eq_true.mp h p hp
  simpa using this

theorem spend_nonneg {s : SimState} {cl : Cost} (hnd : (costKeys cl).Nodup)
    (haff : canAffordL s cl = true) (hres : ∀ r, 0 ≤ s.resources r) :
    ∀ r, 0 ≤ (spend cl s).resources r := by
  intro r
  rw [spend_resources]
  by_cases hin : r ∈ costKeys cl
  · obtain ⟨a, hfil, hmem⟩ := filter_key_single cl hnd r hin
    rw [hfil]
    have := canAffordL_spec haff (r, a) hmem
    simp only [List.map_cons, List.map_nil, List.sum_cons, List.sum_nil]
    linarith
  · have : cl.filter (fun p => p.1 = r) = [] := by
      rw [List.filter_eq_nil_iff]
      intro q hq
      simp only [decide_eq_true_eq]
      intro h
      exact hin (h ▸ List.mem_map_of_mem (fun p => p.1) hq)
    rw [this]
    simpa using hres r

theorem prodOf_nonneg (cfg : Config) (hwf : WFConfig cfg) (s : SimState)
    {c : CreatureDef} (hc : c ∈ cfg.creatures) : 0 ≤ prodOf cfg s c := by
  unfold prodOf
  have h1 : 0 ≤ pyGet c.productionByLevel ((s.creature_levels c.id : ℤ) - 1) 0 := by
    rcases pyGet_mem_or c.productionByLevel ((s.creature_levels c.id : ℤ) - 1) 0 with
      hd | hm
    · rw [hd]
    · exact (hwf.2.2.1 c hc).2.2.1 _ hm
  have h2 := get_production_bonus_nonneg cfg s c.produces hwf
  linarith

theorem tickCount_nonneg (cfg : Config) (hwf : WFConfig cfg) {δ : ℚ} (hδ : 0 ≤ δ)
    {s : SimState} (hprog : ∀ x, 0 ≤ s.creature_progress x)
    {c : CreatureDef} (hc : c ∈ cfg.creatures) :
    0 ≤ tickCount (get_speed_multiplier cfg s) δ s c := by
  have heff : 0 < c.spawnTime * get_speed_multiplier cfg s :=
    mul_pos (hwf.2.2.1 c hc).2.1 (get_speed_multiplier_pos cfg s hwf)
  have hq : 0 ≤ (s.creature_progress c.id + δ) / (c.spawnTime * get_speed_multiplier cfg s) :=
    div_nonneg (by linarith [hprog c.id]) (le_of_lt heff)
  unfold tickCount
  rw [pyInt_of_nonneg hq]
  exact Int.floor_nonneg.mpr hq

theorem advance_SimInv (cfg : Config) (hwf : WFConfig cfg) {δ : ℚ} (hδ : 0 ≤ δ)
    {s : SimState} (hs : SimInv cfg s) : SimInv cfg (advance cfg δ s) := by
  obtain ⟨hres, hprog, hlvb, hunl, hbb⟩ := hs
  obtain ⟨ht, hlv, hun, hb, hd, hr, hpc, hpx⟩ := advance_spec cfg δ s hwf.1
  have hsp_pos : 0 < get_speed_multiplier cfg s := get_speed_multiplier_pos cfg s hwf
  refine ⟨?_, ?_, ?_, ?_, ?_⟩
  · intro r
    rw [hr r]
    have hsum : 0 ≤ (cfg.creatures.map
        (fun c => resContrib cfg (get_speed_multiplier cfg s) δ s c r)).sum := by
      apply List.sum_nonneg
      intro x hx
      obtain ⟨c, hc, rfl⟩ := List.mem_map.mp hx
      unfold resContrib
      split
      · exact mul_nonneg (prodOf_nonneg cfg hwf s hc)
          (Int.cast_nonneg.mpr (tickCount_nonneg cfg hwf hδ hprog hc))
      · exact le_refl 0
    linarith [hres r]
  · intro x
    by_cases hx : x ∈ cfg.creatures.map (fun c => c.id)
    · obtain ⟨c, hc, rfl⟩ := List.mem_map.mp hx
      rw [hpc c hc]
      unfold newProg
      have heff : 0 < c.spawnTime * get_speed_multiplier cfg s :=
        mul_pos (hwf.2.2.1 c hc).2.1 hsp_pos
      split
      · split
        · linarith [hprog c.id]
        · have hq : 0 ≤ (s.creature_progress c.id + δ)
              / (c.spawnTime * get_speed_multiplier cfg s) :=
            div_nonneg (by linarith [hprog c.id]) (le_of_lt heff)
          have htf : tickCount (get_speed_multiplier cfg s) δ s c
              = ⌊(s.creature_progress c.id + δ)
                  / (c.spawnTime * get_speed_multiplier cfg s)⌋ :=
            pyInt_of_nonneg hq
          have hle : ((tickCount (get_speed_multiplier cfg s) δ s c : ℚ))
              * (c.spawnTime * get_speed_multiplier cfg s)
              ≤ s.creature_progress c.id + δ := by
            have h1 : ((tickCount (get_speed_multiplier cfg s) δ s c : ℚ))
                ≤ (s.creature_progress c.id + δ)
                  / (c.spawnTime * get_speed_multiplier cfg s) := by
              rw [htf]
              exact_mod_cast Int.floor_le _
            calc ((tickCount (get_speed_multiplier cfg s) δ s c : ℚ))
                  * (c.spawnTime * get_speed_multiplier cfg s)
                ≤ ((s.creature_progress c.id + δ)
                    / (c.spawnTime * get_speed_multiplier cfg s))
                  * (c.spawnTime * get_speed_multiplier cfg s) :=
                  mul_le_mul_of_nonneg_right h1 (le_of_lt heff)
              _ = s.creature_progress c.id + δ :=
                  div_mul_cancel₀ _ (ne_of_gt heff)
          linarith
      · exact hprog c.id
    · rw [hpx x hx]
      exact hprog x
  · intro c hc
    rw [hlv]
    exact hlvb c hc
  · intro c hc
    rw [hun, hlv]
    exact hunl c hc
  · intro b2 hb2
    rw [hb]
    exact hbb b2 hb2

theorem creature_cost_nodup (cfg : Config) (hwf : WFConfig cfg) {s : SimState}
    {cid : String} {cl : Cost}
    (h : get_creature_upgrade_cost cfg s cid = some cl) : (costKeys cl).Nodup := by
  unfold get_creature_upgrade_cost at h
  cases hf : findCreature cfg cid with
  | none => rw [hf] at h; exact absurd h (by simp)
  | some c =>
      rw [hf] at h
      dsimp only at h
      have hcmem : c ∈ cfg.creatures := List.mem_of_find?_eq_some hf
      by_cases hu : s.creature_unlocked cid = false
      · rw [if_pos hu] at h
        exact (hwf.2.2.1 c hcmem).2.2.2.2 cl h
      · rw [if_neg hu] at h
        by_cases hml : c.maxLevel ≤ s.creature_levels cid
        · rw [if_pos hml] at h
          exact absurd h (by simp)
        · rw [if_neg hml] at h
          have hcl : cl = pyGet c.upgradeCosts ((s.creature_levels cid : ℤ) - 1) [] := by
            injection h with h2
            exact h2.symm
          rcases pyGet_mem_or c.upgradeCosts ((s.creature_levels cid : ℤ) - 1) []
            with hd | hm
          · rw [hcl, hd]; exact List.nodup_nil
          · rw [hcl]; exact (hwf.2.2.1 c hcmem).2.2.2.1 _ hm

theorem boost_cost_nodup (cfg : Config) (hwf : WFConfig cfg) {s : SimState}
    {bid : String} {cl : Cost}
    (h : get_boost_upgrade_cost cfg s bid = some cl) : (costKeys cl).Nodup := by
  unfold get_boost_upgrade_cost at h
  cases hf : findBoost cfg bid with
  | none => rw [hf] at h; exact absurd h (by simp)
  | some b =>
      rw [hf] at h
      dsimp only at h
      have hbmem : b ∈ cfg.boosts := List.mem_of_find?_eq_some hf
      by_cases hml : b.maxLevel ≤ s.boost_levels bid
      · rw [if_pos hml] at h
        exact absurd h (by simp)
      · rw [if_neg hml] at h
        have hcl : cl = pyGet b.costs (s.boost_levels bid : ℤ) [] := by
          injection h with h2
          exact h2.symm
        rcases pyGet_mem_or b.costs (s.boost_levels bid : ℤ) [] with hd | hm
        · rw [hcl, hd]; exact List.nodup_nil
        · rw [hcl]; exact (hwf.2.2.2 b hbmem).1 _ hm

theorem upgrade_creature_SimInv (cfg : Config) (hwf : WFConfig cfg) (cid : String)
    {s : SimState} (hs : SimInv cfg s) :
    SimInv cfg (upgrade_creature cfg cid s).2 := by
  obtain ⟨hres, hprog, hlvb, hunl, hbb⟩ := hs
  cases hc : get_creature_upgrade_cost cfg s cid with
  | none =>
      have hb : (upgrade_creature cfg cid s).2 = s := by simp [upgrade_creature, hc]
      rw [hb]
      exact ⟨hres, hprog, hlvb, hunl, hbb⟩
  | some cl =>
      cases haff : canAffordL s cl with
      | false =>
          have hb : (upgrade_creature cfg cid s).2 = s := by
            simp [upgrade_creature, hc, haff]
          rw [hb]
          exact ⟨hres, hprog, hlvb, hunl, hbb⟩
      | true =>
          have hnodup := creature_cost_nodup cfg hwf hc
          have hresS := spend_nonneg hnodup haff hres
          obtain ⟨c0, hf⟩ : ∃ c0, findCreature cfg cid = some c0 := by
            cases hf : findCreature cfg cid with
            | none =>
                rw [get_creature_upgrade_cost, hf] at hc
                exact absurd hc (by simp)
            | some c0 => exact ⟨c0, rfl⟩
          have hc0mem : c0 ∈ cfg.creatures := List.mem_of_find?_eq_some hf
          have hc0id : c0.id = cid := by
            have := List.find?_some hf
            simpa using this
          by_cases hu : s.creature_unlocked cid = false
          · have hbody : (upgrade_creature cfg cid s).2 =
                { resources := (spend cl s).resources
                  creature_levels := (Function.update s.creature_levels cid 1)
                  creature_unlocked := (Function.update s.creature_unlocked cid true)
                  creature_progress := s.creature_progress
                  boost_levels := s.boost_levels
                  total_damage := s.total_damage
                  time_elapsed_ms := s.time_elapsed_ms } := by
              simp [upgrade_creature, hc, haff, hu, spend]
            refine ⟨?_, ?_, ?_, ?_, ?_⟩
            · intro r; simp only [hbody]; exact hresS r
            · intro x; simp only [hbody]; exact hprog x
            · intro c hcm
              simp only [hbody]
              by_cases heq : c.id = cid
              · rw [heq, Function.update_same]
                have hcc0 : c = c0 := by
                  have h1 := findCreature_self hwf.1 hcm
                  rw [heq, hf] at h1
                  exact (Option.some_inj.mp h1).symm
                subst hcc0
                exact (hwf.2.2.1 c hcm).1
              · rw [Function.update_noteq heq]
                exact hlvb c hcm
            · intro c hcm
              simp only [hbody]
              by_cases heq : c.id = cid
              · rw [heq, Function.update_same, Function.update_same]
                simp
              · rw [Function.update_noteq heq, Function.update_noteq heq]
                exact hunl c hcm
            · intro b2 hb2
              simp only [hbody]
              exact hbb b2 hb2
          · have hu2 : s.creature_unlocked cid = true := by
              revert hu; cases s.creature_unlocked cid <;> simp
            have hml : ¬ c0.maxLevel ≤ s.creature_levels cid := by
              rw [get_creature_upgrade_cost, hf] at hc
              dsimp only at hc
              rw [if_neg (by simp [hu2])] at hc
              by_contra hml
              rw [if_pos hml] at hc
              exact absurd hc (by simp)
            have hbody : (upgrade_creature cfg cid s).2 =
                { resources := (spend cl s).resources
                  creature_levels :=
                    (Function.update s.creature_levels cid (s.creature_levels cid + 1))
                  creature_unlocked := s.creature_unlocked
                  creature_progress := s.creature_progress
                  boost_levels := s.boost_levels
                  total_damage := s.total_damage
                  time_elapsed_ms := s.time_elapsed_ms } := by
              simp [upgrade_creature, hc, haff, hu2, spend]
            refine ⟨?_, ?_, ?_, ?_, ?_⟩
            · intro r; simp only [hbody]; exact hresS r
            · intro x; simp only [hbody]; exact hprog x
            · intro c hcm
              simp only [hbody]
              by_cases heq : c.id = cid
              · rw [heq, Function.update_same]
                have hcc0 : c = c0 := by
                  have h1 := findCreature_self hwf.1 hcm
                  rw [heq, hf] at h1
                  exact (Option.some_inj.mp h1).symm
                subst hcc0
                omega
              · rw [Function.update_noteq heq]
                exact hlvb c hcm
            · intro c hcm
              simp only [hbody]
              by_cases heq : c.id = cid
              · rw [heq, Function.update_same]
                constructor
                · intro _; omega
                · intro _; rw [← heq] at hu2; exact heq ▸ hu2
              · rw [Function.update_noteq heq]
                exact hunl c hcm
            · intro b2 hb2
              simp only [hbody]
              exact hbb b2 hb2

theorem upgrade_boost_SimInv (cfg : Config) (hwf : WFConfig cfg) (bid : String)
    {s : SimState} (hs : SimInv cfg s) :
    SimInv cfg (upgrade_boost cfg bid s).2 := by
  obtain ⟨hres, hprog, hlvb, hunl, hbb⟩ := hs
  cases hc : get_boost_upgrade_cost cfg s bid with
  | none =>
      have hb : (upgrade_boost cfg bid s).2 = s := by simp [upgrade_boost, hc]
      rw [hb]
      exact ⟨hres, hprog, hlvb, hunl, hbb⟩
  | some cl =>
      cases haff : canAffordL s cl with
      | false =>
          have hb : (upgrade_boost cfg bid s).2 = s := by
            simp [upgrade_boost, hc, haff]
          rw [hb]
          exact ⟨hres, hprog, hlvb, hunl, hbb⟩
      | true =>
          have hnodup := boost_cost_nodup cfg hwf hc
          have hresS := spend_nonneg hnodup haff hres
          obtain ⟨b0, hf⟩ : ∃ b0, findBoost cfg bid = some b0 := by
            cases hf : findBoost cfg bid with
            | none =>
                rw [get_boost_upgrade_cost, hf] at hc
                exact absurd hc (by simp)
            | some b0 => exact ⟨b0, rfl⟩
          have hb0mem : b0 ∈ cfg.boosts := List.mem_of_find?_eq_some hf
          have hml : ¬ b0.maxLevel ≤ s.boost_levels bid := by
            rw [get_boost_upgrade_cost, hf] at hc
            dsimp only at hc
            by_contra hml
            rw [if_pos hml] at hc
            exact absurd hc (by simp)
          have hbody : (upgrade_boost cfg bid s).2 =
              { resources := (spend cl s).resources
                creature_levels := s.creature_levels
                creature_unlocked := s.creature_unlocked
                creature_progress := s.creature_progress
                boost_levels :=
                  (Function.update s.boost_levels bid (s.boost_levels bid + 1))
                total_damage := s.total_damage
                time_elapsed_ms := s.time_elapsed_ms } := by
            simp [upgrade_boost, hc, haff, spend]
          refine ⟨?_, ?_, ?_, ?_, ?_⟩
          · intro r; simp only [hbody]; exact hresS r
          · intro x; simp only [hbody]; exact hprog x
          · intro c hcm; simp only [hbody]; exact hlvb c hcm
          · intro c hcm; simp only [hbody]; exact hunl c hcm
          · intro b2 hb2
            simp only [hbody]
            by_cases heq : b2.id = bid
            · rw [heq, Function.update_same]
              have hbb0 : b2 = b0 := by
                have h1 := findBoost_self hwf.2.1 hb2
                rw [heq, hf] at h1
                exact (Option.some_inj.mp h1).symm
              subst hbb0
              omega
            · rw [Function.update_noteq heq]
              exact hbb b2 hb2

/-- One observable operation of the simulation engine: a nonnegative time
step, a creature upgrade attempt, or a boost upgrade attempt. -/
inductive GameStep (cfg : Config) : SimState → SimState → Prop where
  | advance (δ : ℚ) (hδ : 0 ≤ δ) (s : SimState) : GameStep cfg s (advance cfg δ s)
  | creature (cid : String) (s : SimState) :
      GameStep cfg s (upgrade_creature cfg cid s).2
  | boost (bid : String) (s : SimState) :
      GameStep cfg s (upgrade_boost cfg bid s).2

/-- The states reachable from a fresh `GameSim` by any sequence of `advance`,
`upgrade_creature` and `upgrade_boost` calls. -/
def Reachable (cfg : Config) (s : SimState) : Prop :=
  Relation.ReflTransGen (GameStep cfg) (reset cfg) s

theorem reset_SimInv (cfg : Config) (hwf : WFConfig cfg) : SimInv cfg (reset cfg) := by
  refine ⟨fun r => le_refl 0, fun x => le_refl 0, ?_, ?_, ?_⟩
  · intro c hc
    show (match findCreature cfg c.id with
      | some c => if c.unlockedByDefault then 1 else 0
      | none => 0) ≤ c.maxLevel
    rw [findCreature_self hwf.1 hc]
    dsimp only
    split
    · exact (hwf.2.2.1 c hc).1
    · exact Nat.zero_le _
  · intro c hc
    show ((match findCreature cfg c.id with
      | some c => c.unlockedByDefault
      | none => false) = true ↔
      1 ≤ (match findCreature cfg c.id with
        | some c => if c.unlockedByDefault then 1 else 0
        | none => 0))
    rw [findCreature_self hwf.1 hc]
    dsimp only
    cases c.unlockedByDefault <;> simp
  · intro b hb
    exact Nat.zero_le _

theorem reachable_SimInv (cfg : Config) (hwf : WFConfig cfg) :
    ∀ s, Reachable cfg s → SimInv cfg s := by
  intro s h
  induction h with
  | refl => exact reset_SimInv cfg hwf
  | tail _ hstep ih =>
      cases hstep with
      | advance δ hδ s2 => exact advance_SimInv cfg hwf hδ ih
      | creature cid s2 => exact upgrade_creature_SimInv cfg hwf cid ih
      | boost bid s2 => exact upgrade_boost_SimInv cfg hwf bid ih

/-- **C3.** In every state reachable from the initial state of the shipped
configuration by any sequence of `advance` (nonnegative deltas),
`upgrade_creature` and `upgrade_boost` calls: every resource balance is
nonnegative, every creature level is at most its definition's `maxLevel`,
every boost level is at most its `maxLevel`, and a creature's unlocked flag
is `false` only while its level is `0`. -/
theorem claim_C3_invariant (s : SimState) (h : Reachable EVENT_CONFIG s) :
    (∀ r, 0 ≤ s.resources r) ∧
    (∀ c ∈ EVENT_CONFIG.creatures, s.creature_levels c.id ≤ c.maxLevel) ∧
    (∀ b ∈ EVENT_CONFIG.boosts, s.boost_levels b.id ≤ b.maxLevel) ∧
    (∀ c ∈ EVENT_CONFIG.creatures,
      s.creature_unlocked c.id = false → s.creature_levels c.id = 0) := by
  obtain ⟨hres, _, hlvb, hunl, hbb⟩ :=
    reachable_SimInv EVENT_CONFIG wf_EVENT_CONFIG s h
  refine ⟨hres, hlvb, hbb, ?_⟩
  intro c hc hfalse
  have := (hunl c hc).mpr
  by_contra hne
  have h1 : 1 ≤ s.creature_levels c.id := by omega
  rw [this h1] at hfalse
  exact absurd hfalse (by simp)

/-- Witness for C3: the initial state itself is reachable and satisfies the
invariant. -/
theorem claim_C3_invariant_witness :
    (∀ r, 0 ≤ (reset EVENT_CONFIG).resources r) ∧
    (∀ c ∈ EVENT_CONFIG.creatures,
      (reset EVENT_CONFIG).creature_levels c.id ≤ c.maxLevel) ∧
    (∀ b ∈ EVENT_CONFIG.boosts,
      (reset EVENT_CONFIG).boost_levels b.id ≤ b.maxLevel) ∧
    (∀ c ∈ EVENT_CONFIG.creatures,
      (reset EVENT_CONFIG).creature_unlocked c.id = false →
        (reset EVENT_CONFIG).creature_levels c.id = 0) :=
  claim_C3_invariant (reset EVENT_CONFIG) Relation.ReflTransGen.refl

/-! ## The zero-purchase baseline run (claim C5) -/

theorem speed_one_of_zero {s : SimState} (hb : s.boost_levels = fun _ => 0) :
    get_speed_multiplier EVENT_CONFIG s = 1 := by
  simp [get_speed_multiplier, EVENT_CONFIG, speedScan, hb]

theorem damage_one_of_zero {s : SimState} (hb : s.boost_levels = fun _ => 0) :
    get_damage_multiplier EVENT_CONFIG s = 1 := by
  simp [get_damage_multiplier, EVENT_CONFIG, damageScan, hb]

/-- The shape of every state of a zero-purchase run after `S` milliseconds:
default levels and flags, no boosts, and Fiona's accumulator and the
cumulative damage determined by `⌊S / 1000⌋` fired ticks. -/
def noBuy (S : ℚ) (s : SimState) : Prop :=
  s.creature_levels = (reset EVENT_CONFIG).creature_levels ∧
  s.creature_unlocked = (reset EVENT_CONFIG).creature_unlocked ∧
  s.boost_levels = (fun _ => 0) ∧
  0 ≤ S ∧
  s.creature_progress "fiona" = S - 1000 * (⌊S / 1000⌋ : ℚ) ∧
  s.total_damage = 5 * (⌊S / 1000⌋ : ℚ)

theorem noBuy_step {S δ : ℚ} (hδ : 0 ≤ δ) {s : SimState} (h : noBuy S s) :
    noBuy (S + δ) (advance EVENT_CONFIG δ s) := by
  obtain ⟨hlv, hun, hbz, hS, hp, hd⟩ := h
  obtain ⟨ht, alv, aun, ab, ad, _, apc, _⟩ :=
    advance_spec EVENT_CONFIG δ s wf_EVENT_CONFIG.1
  have hsp : get_speed_multiplier EVENT_CONFIG s = 1 := speed_one_of_zero hbz
  have hdm : get_damage_multiplier EVENT_CONFIG s = 1 := damage_one_of_zero hbz
  rw [hsp, hdm] at ad
  rw [hsp] at apc
  have hfmem : fiona ∈ EVENT_CONFIG.creatures := by simp [EVENT_CONFIG]
  have hfid : fiona.id = "fiona" := rfl
  have hlvf : s.creature_levels fiona.id = 1 := by rw [hlv]; rfl
  have hunf : s.creature_unlocked fiona.id = true := by rw [hun]; rfl
  have hfact : isActive s fiona = true := by
    unfold isActive
    rw [hlvf, hunf]
    rfl
  have hjact : isActive s jingles = false := by
    unfold isActive
    rw [hun]
    rfl
  have hoact : isActive s ox = false := by
    unfold isActive
    rw [hun]
    rfl
  have hbact : isActive s batilda = false := by
    unfold isActive
    rw [hun]
    rfl
  have hmact : isActive s murkyMandy = false := by
    unfold isActive
    rw [hun]
    rfl
  have hpact : isActive s patches = false := by
    unfold isActive
    rw [hun]
    rfl
  have hspawn : fiona.spawnTime * 1 = 1000 := by norm_num [fiona, TIME_FACTOR]
  have hfloor : (1000 : ℚ) * (⌊S / 1000⌋ : ℚ) ≤ S := by
    have h1 : (⌊S / 1000⌋ : ℚ) ≤ S / 1000 := Int.floor_le _
    have h2 : (⌊S / 1000⌋ : ℚ) * 1000 ≤ (S / 1000) * 1000 :=
      mul_le_mul_of_nonneg_right h1 (by norm_num)
    rw [div_mul_cancel₀ _ (by norm_num : (1000:ℚ) ≠ 0)] at h2
    linarith
  have hq : (s.creature_progress fiona.id + δ) / (fiona.spawnTime * 1)
      = (S + δ) / 1000 - (⌊S / 1000⌋ : ℚ) := by
    rw [hfid, hspawn, hp]
    field_simp
    ring
  have hq0 : 0 ≤ (s.creature_progress fiona.id + δ) / (fiona.spawnTime * 1) := by
    rw [hfid, hspawn]
    apply div_nonneg _ (by norm_num)
    rw [hp]
    linarith
  have htickf : tickCount 1 δ s fiona = ⌊(S + δ) / 1000⌋ - ⌊S / 1000⌋ := by
    unfold tickCount
    rw [pyInt_of_nonneg hq0, hq]
    exact_mod_cast Int.floor_sub_int ((S + δ) / 1000) ⌊S / 1000⌋
  have hdmg5 : dmgOf 1 s fiona = 5 := by
    unfold dmgOf
    rw [hlvf]
    norm_num [fiona, pyGet]
  refine ⟨alv.trans hlv, aun.trans hun, ab.trans hbz, by linarith, ?_, ?_⟩
  · have hpc := apc fiona hfmem
    rw [hfid] at hpc
    rw [hpc]
    unfold newProg
    rw [if_pos hfact, hfid, hspawn, htickf, hp]
    by_cases htz : tickCount 1 δ s fiona = 0
    · rw [htickf] at htz
      have hfe : ⌊(S + δ) / 1000⌋ = ⌊S / 1000⌋ := by omega
      rw [if_pos (by omega : ⌊(S + δ) / 1000⌋ - ⌊S / 1000⌋ = 0), hfe]
      ring
    · rw [htickf] at htz
      rw [if_neg htz]
      push_cast
      ring
  · rw [ad, hd]
    have hsum : (EVENT_CONFIG.creatures.map (dmgContrib 1 1 δ s)).sum
        = 5 * ((⌊(S + δ) / 1000⌋ : ℚ) - (⌊S / 1000⌋ : ℚ)) := by
      simp only [EVENT_CONFIG, List.map_cons, List.map_nil, List.sum_cons,
        List.sum_nil, dmgContrib, hfact, hjact, hoact, hbact, hmact, hpact]
      rw [hdmg5, htickf]
      push_cast
      ring
    rw [hsum]
    ring

theorem noBuy_fold :
    ∀ (ds : List ℚ), (∀ d ∈ ds, 0 ≤ d) → ∀ (S : ℚ) (s : SimState), noBuy S s →
      noBuy (S + ds.sum) (ds.foldl (fun s d => advance EVENT_CONFIG d s) s) := by
  intro ds
  induction ds with
  | nil =>
      intro _ S s h
      simpa using h
  | cons d t ih =>
      intro hpos S s h
      have hstep := noBuy_step (hpos d (List.mem_cons_self d t)) h
      have := ih (fun x hx => hpos x (List.mem_cons_of_mem d hx)) (S + d)
        (advance EVENT_CONFIG d s) hstep
      simpa [add_assoc] using this

/-- **C5.** If no purchase is ever made and the event is simulated by any
sequence of nonnegative `advance` deltas summing to the event duration, the
final cumulative damage is the sum, over default-unlocked units, of
`floor(duration / base spawn interval) × damageByLevel[0]` — here the one
default unit (Fiona, 1000 ms interval, level-1 damage 5) over the
51,840,000 ms event: `51840 × 5 = 259200`. -/
theorem claim_C5_baseline (ds : List ℚ) (hpos : ∀ d ∈ ds, 0 ≤ d)
    (hsum : ds.sum = EVENT_CONFIG.duration) :
    (ds.foldl (fun s d => advance EVENT_CONFIG d s) (reset EVENT_CONFIG)).total_damage
        = 5 * (⌊EVENT_CONFIG.duration / fiona.spawnTime⌋ : ℚ) ∧
    (ds.foldl (fun s d => advance EVENT_CONFIG d s) (reset EVENT_CONFIG)).total_damage
        = 259200 := by
  have h0 : noBuy 0 (reset EVENT_CONFIG) :=
    ⟨rfl, rfl, rfl, le_refl 0, by norm_num [reset], by norm_num [reset]⟩
  have hf := noBuy_fold ds hpos 0 (reset EVENT_CONFIG) h0
  rw [hsum] at hf
  have hdmg := hf.2.2.2.2.2
  have hdur : EVENT_CONFIG.duration = 51840000 := by
    norm_num [EVENT_CONFIG, EVENT_DURATION_HOURS, TIME_FACTOR, HOURS]
  have hfl : ⌊(0 + EVENT_CONFIG.duration) / 1000⌋ = 51840 := by
    rw [hdur]
    norm_num
  have hfl2 : ⌊EVENT_CONFIG.duration / fiona.spawnTime⌋ = 51840 := by
    rw [hdur]
    norm_num [fiona, TIME_FACTOR]
  rw [hfl] at hdmg
  constructor
  · rw [hdmg, hfl2]
  · rw [hdmg]
    norm_num

/-- Witness for C5: the whole event advanced in a single call. -/
theorem claim_C5_baseline_witness :
    ([(51840000 : ℚ)].foldl (fun s d => advance EVENT_CONFIG d s)
        (reset EVENT_CONFIG)).total_damage
        = 5 * (⌊EVENT_CONFIG.duration / fiona.spawnTime⌋ : ℚ) ∧
    ([(51840000 : ℚ)].foldl (fun s d => advance EVENT_CONFIG d s)
        (reset EVENT_CONFIG)).total_damage
        = 259200 :=
  claim_C5_baseline [(51840000 : ℚ)] (by intro d hd; simp at hd; rw [hd]; norm_num)
    (by norm_num [EVENT_CONFIG, EVENT_DURATION_HOURS, TIME_FACTOR, HOURS])

/-! ## Frame facts for the greedy what-if scoring (claim C10) -/

theorem upgrade_creature_frame (cfg : Config) (uid : String) (s : SimState) :
    (upgrade_creature cfg uid s).2.creature_progress = s.creature_progress ∧
    (upgrade_creature cfg uid s).2.total_damage = s.total_damage ∧
    (upgrade_creature cfg uid s).2.time_elapsed_ms = s.time_elapsed_ms := by
  cases hc : get_creature_upgrade_cost cfg s uid with
  | none => simp [upgrade_creature, hc]
  | some cl =>
      cases haff : canAffordL s cl with
      | false => simp [upgrade_creature, hc, haff]
      | true =>
          by_cases hu : s.creature_unlocked uid = false
          · simp [upgrade_creature, hc, haff, hu, spend]
          · simp [upgrade_creature, hc, haff, hu, spend]

theorem upgrade_boost_frame (cfg : Config) (uid : String) (s : SimState) :
    (upgrade_boost cfg uid s).2.creature_progress = s.creature_progress ∧
    (upgrade_boost cfg uid s).2.total_damage = s.total_damage ∧
    (upgrade_boost cfg uid s).2.time_elapsed_ms = s.time_elapsed_ms := by
  cases hc : get_boost_upgrade_cost cfg s uid with
  | none => simp [upgrade_boost, hc]
  | some cl =>
      cases haff : canAffordL s cl with
      | false => simp [upgrade_boost, hc, haff]
      | true => simp [upgrade_boost, hc, haff, spend]

/-- **C10.** The greedy baseline's what-if scoring never disturbs the
original simulation.  In the embedding the original is a value, so the
statement that carries the content of the claim is about the aliasing
discipline the Python code depends on: the shallow copy (`scoreCopy`) is
exactly the original state (duplicating the four mutable dicts is the
identity on values, and the configuration is passed by reference, never
copied), and the hypothetical purchase applied to that copy writes only the
duplicated fields — the fields `copy.copy` leaves shared with the original
(`creature_progress`, `total_damage`, `time_elapsed_ms`) are untouched by
`upgrade_creature`/`upgrade_boost`, and the `get_dps` reads mutate nothing.
Hence resource balances, creature levels, unlocked flags, boost levels,
progress accumulators, cumulative damage and elapsed time of the original
are identical before and after `_score_upgrade`. -/
theorem claim_C10_score_isolation (cfg : Config) (uid : String) (s : SimState) :
    scoreCopy s = s ∧
    (∀ kind : Kind,
      (hypotheticalSim cfg kind uid s).creature_progress = s.creature_progress ∧
      (hypotheticalSim cfg kind uid s).total_damage = s.total_damage ∧
      (hypotheticalSim cfg kind uid s).time_elapsed_ms = s.time_elapsed_ms) := by
  refine ⟨rfl, ?_⟩
  intro kind
  cases kind with
  | creature =>
      have h := upgrade_creature_frame cfg uid (scoreCopy s)
      exact ⟨h.1, h.2.1, h.2.2⟩
  | boost =>
      have h := upgrade_boost_frame cfg uid (scoreCopy s)
      exact ⟨h.1, h.2.1, h.2.2⟩

/-! ## Speed-multiplier bounds (claim C7) -/

/-- **C7 (amended).** For every state whose `champion-speed` level is within
its `maxLevel` of 5 (all levels reachable in the shipped configuration),
the speed multiplier `1 - bonusByLevel[level-1]` (or `1` with no boost
owned) is at least `3/4`, hence strictly positive, so every effective spawn
interval is strictly positive and `advance` can never enter an
infinite-tick scenario.  (The claim's second half — that a configuration
whose maximum speed bonus is ≥ 1.0 is rejected or clamped at load time —
is refuted by `claim_C7_counterexample`: no load-time validation exists.) -/
theorem claim_C7_speed_positive (s : SimState)
    (h : s.boost_levels "champion-speed" ≤ 5) :
    3/4 ≤ get_speed_multiplier EVENT_CONFIG s ∧
    0 < get_speed_multiplier EVENT_CONFIG s ∧
    (∀ c ∈ EVENT_CONFIG.creatures, 0 < get_effective_spawn_time EVENT_CONFIG s c) := by
  have hmult : 3/4 ≤ get_speed_multiplier EVENT_CONFIG s := by
    show 3/4 ≤ speedScan s EVENT_CONFIG.boosts
    simp only [EVENT_CONFIG, speedScan, sapphireBoost, emeraldBoost, rubyBoost,
      championSpeed, championDamage]
    simp only [show (BoostType.production = BoostType.speed) = False by simp,
      show (BoostType.damage = BoostType.speed) = False by simp,
      show (BoostType.speed = BoostType.speed) = True by simp,
      false_and, if_false, true_and]
    set lv := s.boost_levels "champion-speed" with hlv
    split
    · next h0 =>
        interval_cases lv <;> simp [pyGet] <;> norm_num
    · norm_num
  refine ⟨hmult, by linarith, ?_⟩
  intro c hc
  have hsp : 0 < c.spawnTime := (wf_EVENT_CONFIG.2.2.1 c hc).2.1
  exact mul_pos hsp (by linarith)

/-- Witness for C7 at the initial state (no boost owned). -/
theorem claim_C7_speed_positive_witness :
    3/4 ≤ get_speed_multiplier EVENT_CONFIG (reset EVENT_CONFIG) ∧
    0 < get_speed_multiplier EVENT_CONFIG (reset EVENT_CONFIG) ∧
    (∀ c ∈ EVENT_CONFIG.creatures,
      0 < get_effective_spawn_time EVENT_CONFIG (reset EVENT_CONFIG) c) :=
  claim_C7_speed_positive (reset EVENT_CONFIG) (by decide)

/-- A producing unit for the ill-formed test configuration. -/
def badUnit : CreatureDef where
  id := "u"
  name := "U"
  unlockedByDefault := true
  produces := "gold"
  spawnTime := 1000
  maxLevel := 1
  productionByLevel := [1]
  damageByLevel := [1]
  unlockCost := none
  upgradeCosts := []

/-- A speed boost whose level-1 bonus is `1.5 ≥ 1.0`, purchasable for free. -/
def badSpeedBoost : BoostDef where
  id := "bad-speed"
  name := "Bad Speed"
  btype := BoostType.speed
  resource := none
  maxLevel := 1
  bonusByLevel := [3/2]
  costs := [[]]

/-- A configuration whose maximum speed bonus is `1.5 ≥ 1.0`. -/
def badCfg : Config where
  duration := 1000
  resources := ["gold"]
  creatures := [badUnit]
  boosts := [badSpeedBoost]

/-- The state after buying the bad boost — reached through the engine's own
operations, with no load-time rejection anywhere. -/
def badState : SimState := (upgrade_boost badCfg "bad-speed" (reset badCfg)).2

/-- **C7 (counterexample).** The claim's load-time guard does not exist: a
configuration whose maximum speed bonus is `1.5 ≥ 1.0` is accepted
unchanged, its boost is purchasable through `upgrade_boost`, and the
simulation then computes a *negative* speed multiplier (`-1/2`) and a
negative effective spawn interval (`-500` ms) — the configuration is
simulated, not rejected or clamped (`advance` still advances the clock). -/
theorem claim_C7_counterexample :
    badState.boost_levels "bad-speed" = 1 ∧
    get_speed_multiplier badCfg badState = -(1/2) ∧
    get_effective_spawn_time badCfg badState badUnit = -500 ∧
    (advance badCfg 1000 badState).time_elapsed_ms
      = badState.time_elapsed_ms + 1000 := by
  have hlev : badState.boost_levels "bad-speed" = 1 := rfl
  have hsp : get_speed_multiplier badCfg badState = -(1/2) := by
    show speedScan badState badCfg.boosts = -(1/2)
    simp only [badCfg, speedScan, badSpeedBoost, hlev]
    norm_num [pyGet]
  refine ⟨hlev, hsp, ?_, ?_⟩
  · unfold get_effective_spawn_time
    rw [hsp]
    norm_num [badUnit]
  · exact (advance_spec badCfg 1000 badState (by decide)).1

/-! ## Perturbation operators preserve the ordering invariant (claim C8) -/

theorem cons_set_perm [Inhabited α] :
    ∀ (t : List α) (k : Nat) (a : α), k < t.length →
      ((t.getD k default) :: (t.set k a)).Perm (a :: t) := by
  intro t
  induction t with
  | nil => intro k a hk; simp at hk
  | cons b t2 ih =>
      intro k a hk
      cases k with
      | zero =>
          simp only [List.getD_cons_zero, List.set_cons_zero]
          exact List.Perm.swap a b t2
      | succ m =>
          simp only [List.getD_cons_succ, List.set_cons_succ]
          have hm : m < t2.length := by simpa using hk
          exact (List.Perm.swap b (t2.getD m default) (t2.set m a)).trans
            ((List.Perm.cons b (ih m a hm)).trans (List.Perm.swap a b t2))

theorem swapPos_perm [Inhabited α] :
    ∀ (l : List α) (i j : Nat), i < l.length → j < l.length →
      (swapPos l i j).Perm l := by
  intro l
  induction l with
  | nil => intro i j hi _; simp at hi
  | cons a t ih =>
      intro i j hi hj
      cases i with
      | zero =>
          cases j with
          | zero => simp [swapPos]
          | succ k =>
              have hk : k < t.length := by simpa using hj
              show ((( a :: t ).set 0 ((a :: t).getD (k+1) default)).set (k+1)
                ((a :: t).getD 0 default)).Perm (a :: t)
              simp only [List.getD_cons_succ, List.getD_cons_zero,
                List.set_cons_zero, List.set_cons_succ]
              exact cons_set_perm t k a hk
      | succ m =>
          cases j with
          | zero =>
              have hm : m < t.length := by simpa using hi
              show ((( a :: t ).set (m+1) ((a :: t).getD 0 default)).set 0
                ((a :: t).getD (m+1) default)).Perm (a :: t)
              simp only [List.getD_cons_succ, List.getD_cons_zero,
                List.set_cons_succ, List.set_cons_zero]
              exact cons_set_perm t m a hm
          | succ k =>
              have hm : m < t.length := by simpa using hi
              have hk : k < t.length := by simpa using hj
              show ((( a :: t ).set (m+1) ((a :: t).getD (k+1) default)).set (k+1)
                ((a :: t).getD (m+1) default)).Perm (a :: t)
              simp only [List.getD_cons_succ, List.set_cons_succ]
              exact List.Perm.cons a (ih m k hm hk)

theorem perm_getD_cons_eraseIdx [Inhabited α] :
    ∀ (l : List α) (a : Nat), a < l.length →
      l.Perm ((l.getD a default) :: l.eraseIdx a) := by
  intro l
  induction l with
  | nil => intro a ha; simp at ha
  | cons x t ih =>
      intro a ha
      cases a with
      | zero => simp
      | succ k =>
          have hk : k < t.length := by simpa using ha
          simp only [List.getD_cons_succ, List.eraseIdx_cons_succ]
          exact (List.Perm.cons x (ih k hk)).trans
            (List.Perm.swap (t.getD k default) x (t.eraseIdx k))

theorem relocate_perm [Inhabited α] (l : List α) (a b : Nat)
    (ha : a < l.length) (hb : b + 1 < l.length) : (relocate l a b).Perm l := by
  unfold relocate
  have hlen : (l.eraseIdx a).length = l.length - 1 := by
    rw [List.length_eraseIdx]
    simp [ha]
  have hble : b ≤ (l.eraseIdx a).length := by omega
  exact (List.perm_insertIdx _ _ hble).trans
    (perm_getD_cons_eraseIdx l a ha).symm

theorem revSlice_perm (l : List α) (a len : Nat) : (revSlice l a len).Perm l := by
  unfold revSlice
  by_cases hal : a ≤ l.length
  · have hb : a ≤ min (a + len) l.length := by omega
    have hdecomp : l = l.take a ++ (l.drop a).take (min (a + len) l.length - a)
        ++ l.drop (min (a + len) l.length) := by
      rw [← List.take_add]
      have : a + (min (a + len) l.length - a) = min (a + len) l.length := by omega
      rw [this, List.take_append_drop]
    have hperm : (l.take a ++ ((l.drop a).take (min (a + len) l.length - a)).reverse
          ++ l.drop (min (a + len) l.length)).Perm
        (l.take a ++ (l.drop a).take (min (a + len) l.length - a)
          ++ l.drop (min (a + len) l.length)) := by
      apply List.Perm.append_right
      exact List.Perm.append_left _ (List.reverse_perm _)
    rw [← hdecomp] at hperm
    exact hperm
  · have hge : l.length ≤ a := by omega
    have hmin : min (a + len) l.length = l.length := by omega
    simp [List.take_of_length_le hge, List.drop_eq_nil_of_le hge, hmin]

/-- The per-key step-count invariant of §3, phrased as: the multiset of
`(kind, uid)` keys of the ordering is that of the full template (for each
creature `maxLevel - 1` steps if default-unlocked else `maxLevel`, for each
boost `maxLevel`). -/
def validOrdering (l : List UpgradeStep) : Prop :=
  (l.map stepKey).Perm (buildTemplate.map stepKey)

/-- **C8.** Each perturbation operator of the annealing loop — swapping two
positions (`random.sample` indices below `n`), relocating one element
(`pop(a)` with `a < n`, `insert(b)` with `b` drawn from `range(n - 1)`),
and reversing a contiguous slice — permutes the ordering: it preserves the
length and the per-key step counts, so an ordering satisfying the per-key
count invariant is mapped to another one satisfying it; elements are never
added, removed or retyped. -/
theorem claim_C8_perturbation_invariant (l : List UpgradeStep) (a b len : Nat) :
    (a < l.length → b < l.length →
      (swapPos l a b).Perm l ∧ (swapPos l a b).length = l.length ∧
      (∀ k : Key, ((swapPos l a b).map stepKey).count k = (l.map stepKey).count k) ∧
      (validOrdering l → validOrdering (swapPos l a b))) ∧
    (a < l.length → b + 1 < l.length →
      (relocate l a b).Perm l ∧ (relocate l a b).length = l.length ∧
      (∀ k : Key, ((relocate l a b).map stepKey).count k = (l.map stepKey).count k) ∧
      (validOrdering l → validOrdering (relocate l a b))) ∧
    ((revSlice l a len).Perm l ∧ (revSlice l a len).length = l.length ∧
      (∀ k : Key, ((revSlice l a len).map stepKey).count k = (l.map stepKey).count k) ∧
      (validOrdering l → validOrdering (revSlice l a len))) := by
  have pack : ∀ m : List UpgradeStep, m.Perm l →
      m.length = l.length ∧
      (∀ k : Key, (m.map stepKey).count k = (l.map stepKey).count k) ∧
      (validOrdering l → validOrdering m) := by
    intro m hperm
    refine ⟨hperm.length_eq, fun k => (hperm.map stepKey).countP_eq _, fun hv => ?_⟩
    exact (hperm.map stepKey).trans hv
  refine ⟨fun ha hb => ?_, fun ha hb => ?_, ?_⟩
  · have h := swapPos_perm l a b ha hb
    exact ⟨h, pack _ h⟩
  · have h := relocate_perm l a b ha hb
    exact ⟨h, pack _ h⟩
  · have h := revSlice_perm l a len
    exact ⟨h, pack _ h⟩

/-! ## Hill climbing (claim C6) -/

theorem mem_hcPairs {n i j : Nat} : (i, j) ∈ hcPairs n ↔ i < j ∧ j < n := by
  simp only [hcPairs, List.mem_flatMap, List.mem_map, List.mem_range,
    List.mem_range'_1, Prod.mk.injEq]
  constructor
  · rintro ⟨a, ha, b, ⟨hb1, hb2⟩, rfl, rfl⟩
    omega
  · rintro ⟨hij, hjn⟩
    exact ⟨i, by omega, j, ⟨by omega, by omega⟩, rfl, rfl⟩

theorem hcScan_spec (p : List UpgradeStep) :
    ∀ (pr : List (Nat × Nat)) (best : ℚ × Option (Nat × Nat)),
      best.1 ≤ (hcScan p pr best).1 ∧
      (∀ ij ∈ pr, simulate (swapPos p ij.1 ij.2) ≤ (hcScan p pr best).1) ∧
      (hcScan p pr best = best ∨
        ∃ ij ∈ pr, (hcScan p pr best).2 = some ij ∧
          (hcScan p pr best).1 = simulate (swapPos p ij.1 ij.2) ∧
          best.1 < (hcScan p pr best).1) := by
  intro pr
  induction pr with
  | nil =>
      intro best
      exact ⟨le_refl _, by simp, Or.inl rfl⟩
  | cons ij t ih =>
      intro best
      have hunf : hcScan p (ij :: t) best
          = hcScan p t (if best.1 < simulate (swapPos p ij.1 ij.2)
              then (simulate (swapPos p ij.1 ij.2), some ij) else best) := rfl
      by_cases himp : best.1 < simulate (swapPos p ij.1 ij.2)
      · rw [hunf, if_pos himp]
        obtain ⟨h1, h2, h3⟩ := ih (simulate (swapPos p ij.1 ij.2), some ij)
        refine ⟨le_of_lt (lt_of_lt_of_le himp h1), ?_, ?_⟩
        · intro ij2 hij2
          rcases List.mem_cons.mp hij2 with rfl | hmem
          · exact h1
          · exact h2 ij2 hmem
        · rcases h3 with heq | ⟨ij2, hmem, h4, h5, h6⟩
          · right
            refine ⟨ij, List.mem_cons_self ij t, ?_, ?_, ?_⟩
            · rw [heq]
            · rw [heq]
            · rw [heq]; exact himp
          · right
            exact ⟨ij2, List.mem_cons_of_mem ij hmem, h4, h5,
              lt_trans himp h6⟩
      · rw [hunf, if_neg himp]
        obtain ⟨h1, h2, h3⟩ := ih best
        refine ⟨h1, ?_, ?_⟩
        · intro ij2 hij2
          rcases List.mem_cons.mp hij2 with rfl | hmem
          · exact le_trans (le_of_not_lt himp) h1
          · exact h2 ij2 hmem
        · rcases h3 with heq | ⟨ij2, hmem, h4, h5, h6⟩
          · exact Or.inl heq
          · exact Or.inr ⟨ij2, List.mem_cons_of_mem ij hmem, h4, h5, h6⟩

/-- The one-pass contract of `hill_climb`: the returned score dominates the
unmodified ordering and every one of the pairwise swaps; "converged" means
the ordering comes back unchanged with its own score; "improved" means
exactly one swap was applied, the one achieving the returned (strictly
better) score. -/
theorem hill_climb_spec (p : List UpgradeStep) :
    simulate p ≤ (hill_climb p).2.1 ∧
    (∀ i j, i < j → j < p.length →
      simulate (swapPos p i j) ≤ (hill_climb p).2.1) ∧
    ((hill_climb p).2.2 = false →
      (hill_climb p).1 = p ∧ (hill_climb p).2.1 = simulate p) ∧
    ((hill_climb p).2.2 = true →
      ∃ i j, i < j ∧ j < p.length ∧ (hill_climb p).1 = swapPos p i j ∧
        (hill_climb p).2.1 = simulate (hill_climb p).1 ∧
        simulate p < (hill_climb p).2.1) := by
  obtain ⟨h1, h2, h3⟩ := hcScan_spec p (hcPairs p.length) (simulate p, none)
  have hunf : hill_climb p =
      (match (hcScan p (hcPairs p.length) (simulate p, none)).2 with
        | some ij =>
            (swapPos p ij.1 ij.2, (hcScan p (hcPairs p.length) (simulate p, none)).1, true)
        | none => (p, simulate p, false)) := rfl
  cases hr : (hcScan p (hcPairs p.length) (simulate p, none)).2 with
  | none =>
      have hsc : (hcScan p (hcPairs p.length) (simulate p, none)).1 = simulate p := by
        rcases h3 with heq | ⟨ij2, _, h4, _, _⟩
        · rw [heq]
        · rw [h4] at hr; exact absurd hr (by simp)
      rw [hunf, hr]
      refine ⟨le_refl _, ?_, fun _ => ⟨rfl, rfl⟩, fun h => by simp at h⟩
      intro i j hij hjn
      have := h2 (i, j) (mem_hcPairs.mpr ⟨hij, hjn⟩)
      rw [hsc] at this
      exact this
  | some ij =>
      rcases h3 with heq | ⟨ij2, hmem, h4, h5, h6⟩
      · rw [heq] at hr
        exact absurd hr (by simp)
      · have hij2 : ij2 = ij := by
          rw [h4] at hr
          exact Option.some_inj.mp hr
        subst hij2
        rw [hunf, hr]
        obtain ⟨hij, hjn⟩ := mem_hcPairs.mp hmem
        refine ⟨le_of_lt h6, ?_, fun h => by simp at h, fun _ => ?_⟩
        · intro i j hij2 hjn2
          exact h2 (i, j) (mem_hcPairs.mpr ⟨hij2, hjn2⟩)
        · exact ⟨ij2.1, ij2.2, hij, hjn, rfl, h5, h6⟩

/-- The pass loop of `optimize` stops at the first converged pass, and the
tracked score never falls below the score of the ordering it starts from. -/
theorem hillClimbPasses_spec :
    ∀ (k : Nat) (b : List UpgradeStep) (sc : ℚ),
      ((hill_climb b).2.2 = false →
        hillClimbPasses (k + 1) (b, sc) = (b, simulate b)) ∧
      simulate b ≤ (hillClimbPasses (k + 1) (b, sc)).2 := by
  intro k
  induction k with
  | zero =>
      intro b sc
      obtain ⟨h1, _, h3, _⟩ := hill_climb_spec b
      have hunf : hillClimbPasses 1 (b, sc)
          = ((hill_climb b).1, (hill_climb b).2.1) := by
        show (let r := hill_climb b;
          if r.2.2 = true then hillClimbPasses 0 (r.1, r.2.1) else (r.1, r.2.1))
          = ((hill_climb b).1, (hill_climb b).2.1)
        by_cases himp : (hill_climb b).2.2 = true
        · simp [himp, hillClimbPasses]
        · simp [himp]
      constructor
      · intro hfalse
        obtain ⟨hb, hsc⟩ := h3 hfalse
        rw [hunf, hb, hsc]
      · rw [hunf]
        exact h1
  | succ m ih =>
      intro b sc
      obtain ⟨h1, _, h3, h4⟩ := hill_climb_spec b
      have hunf : hillClimbPasses (m + 2) (b, sc)
          = (if (hill_climb b).2.2 = true
              then hillClimbPasses (m + 1) ((hill_climb b).1, (hill_climb b).2.1)
              else ((hill_climb b).1, (hill_climb b).2.1)) := rfl
      constructor
      · intro hfalse
        obtain ⟨hb, hsc⟩ := h3 hfalse
        rw [hunf, if_neg (by rw [hfalse]; simp), hb, hsc]
      · rw [hunf]
        by_cases himp : (hill_climb b).2.2 = true
        · rw [if_pos himp]
          obtain ⟨i, j, _, _, _, heq, hlt⟩ := h4 himp
          have := (ih (hill_climb b).1 (hill_climb b).2.1).2
          calc simulate b ≤ (hill_climb b).2.1 := h1
            _ = simulate (hill_climb b).1 := heq
            _ ≤ _ := this
        · rw [if_neg himp]
          obtain ⟨_, hsc⟩ := h3 (by revert himp; cases (hill_climb b).2.2 <;> simp)
          rw [hsc]

theorem hcPairs_length (n : Nat) : (hcPairs n).length = n * (n - 1) / 2 := by
  unfold hcPairs
  rw [List.length_flatMap]
  show ((List.range n).map
      (fun i => ((List.range' (i + 1) (n - (i + 1))).map (fun j => (i, j))).length)).sum
    = n * (n - 1) / 2
  have hmap : (List.range n).map
      (fun i => ((List.range' (i + 1) (n - (i + 1))).map (fun j => (i, j))).length)
      = (List.range n).map (fun i => n - (i + 1)) :=
    List.map_congr_left (fun i _ => by simp)
  rw [hmap]
  have hbridge : ((List.range n).map (fun i => n - (i + 1))).sum
      = ∑ i in Finset.range n, (n - (i + 1)) := rfl
  rw [hbridge]
  have hcongr : ∑ i in Finset.range n, (n - (i + 1))
      = ∑ i in Finset.range n, (n - 1 - i) := by
    apply Finset.sum_congr rfl
    intro i _
    omega
  rw [hcongr, Finset.sum_range_reflect (fun i => i) n, Finset.sum_range_id]

/-- **C6.** One `hill_climb` pass evaluates all `n(n-1)/2` unordered
position-pair swaps (the pair list has exactly that length and contains
every `i < j < n`, and the returned score dominates every swap's score); if
some swap improves, it applies only the single best improving swap and
reports improved (the result is one swap of the input, scoring strictly
above it); if none improves it returns the ordering unchanged with its own
score and reports converged.  The returned score is always ≥ the input
ordering's score, the pass loop of `optimize` never decreases the tracked
score, and it stops at the first converged pass. -/
theorem claim_C6_hill_climb (p : List UpgradeStep) :
    (hcPairs p.length).length = p.length * (p.length - 1) / 2 ∧
    (∀ i j, (i, j) ∈ hcPairs p.length ↔ i < j ∧ j < p.length) ∧
    simulate p ≤ (hill_climb p).2.1 ∧
    (∀ i j, i < j → j < p.length →
      simulate (swapPos p i j) ≤ (hill_climb p).2.1) ∧
    ((hill_climb p).2.2 = false →
      (hill_climb p).1 = p ∧ (hill_climb p).2.1 = simulate p) ∧
    ((hill_climb p).2.2 = true →
      ∃ i j, i < j ∧ j < p.length ∧ (hill_climb p).1 = swapPos p i j ∧
        (hill_climb p).2.1 = simulate (hill_climb p).1 ∧
        simulate p < (hill_climb p).2.1) ∧
    (∀ (k : Nat) (b : List UpgradeStep) (sc : ℚ),
      ((hill_climb b).2.2 = false →
        hillClimbPasses (k + 1) (b, sc) = (b, simulate b)) ∧
      simulate b ≤ (hillClimbPasses (k + 1) (b, sc)).2) := by
  obtain ⟨h1, h2, h3, h4⟩ := hill_climb_spec p
  exact ⟨hcPairs_length p.length, fun i j => mem_hcPairs, h1, h2, h3, h4,
    hillClimbPasses_spec⟩

/-! ## The decision tick of the evaluator (claim C4) -/

/-- A key has an unconsumed step whose current cost is purchasable:
the pointer is within the key's position list and the cost is truthy
(`cost and sim.can_afford(cost)`: non-`None`, non-empty) and affordable. -/
def qualifies (s : SimState) (p : List UpgradeStep) (cnt : Key → Nat)
    (k : Key) : Prop :=
  cnt k < (positionsOf p k).length ∧
  ∃ cl, costOfKey s k = some cl ∧ cl ≠ [] ∧ canAffordL s cl = true

/-- The current (next unconsumed) position of a key in the priority list. -/
def curPos (p : List UpgradeStep) (cnt : Key → Nat) (k : Key) : Nat :=
  (positionsOf p k).getD (cnt k) 0

/-- The boolean returned by the purchase the decision tick performs (the
source discards it). -/
def upgradeApplied (k : Key) (s : SimState) : Bool :=
  match k.1 with
  | Kind.creature => (upgrade_creature EVENT_CONFIG k.2 s).1
  | Kind.boost => (upgrade_boost EVENT_CONFIG k.2 s).1

theorem mem_positionsOf {p : List UpgradeStep} {k : Key} {i : Nat} :
    i ∈ positionsOf p k ↔ i < p.length ∧ stepKey (p.getD i default) = k := by
  simp [positionsOf, List.mem_filter, List.mem_range]

theorem curPos_lt {p : List UpgradeStep} {cnt : Key → Nat} {k : Key}
    (h : cnt k < (positionsOf p k).length) : curPos p cnt k < p.length := by
  have hmem : (positionsOf p k).getD (cnt k) 0 ∈ positionsOf p k := by
    rw [List.getD_eq_getElem?_getD, List.getElem?_eq_getElem h]
    exact List.getElem_mem h
  exact (mem_positionsOf.mp hmem).1

theorem curPos_inj {p : List UpgradeStep} {cnt : Key → Nat} {k1 k2 : Key}
    (h1 : cnt k1 < (positionsOf p k1).length)
    (h2 : cnt k2 < (positionsOf p k2).length)
    (heq : curPos p cnt k1 = curPos p cnt k2) : k1 = k2 := by
  have hmem1 : curPos p cnt k1 ∈ positionsOf p k1 := by
    unfold curPos
    rw [List.getD_eq_getElem?_getD, List.getElem?_eq_getElem h1]
    exact List.getElem_mem h1
  have hmem2 : curPos p cnt k2 ∈ positionsOf p k2 := by
    unfold curPos
    rw [List.getD_eq_getElem?_getD, List.getElem?_eq_getElem h2]
    exact List.getElem_mem h2
  rw [heq] at hmem1
  have e1 := (mem_positionsOf.mp hmem1).2
  have e2 := (mem_positionsOf.mp hmem2).2
  exact e1.symm.trans e2

theorem mem_insKeys_aux :
    ∀ (l : List UpgradeStep) (acc : List Key) (x : Key),
      x ∈ l.foldl (fun acc st => if stepKey st ∈ acc then acc else acc ++ [stepKey st]) acc
        ↔ x ∈ acc ∨ x ∈ l.map stepKey := by
  intro l
  induction l with
  | nil => intro acc x; simp
  | cons st t ih =>
      intro acc x
      simp only [List.foldl_cons, List.map_cons, List.mem_cons]
      rw [ih]
      by_cases hst : stepKey st ∈ acc
      · rw [if_pos hst]
        constructor
        · rintro (h | h)
          · exact Or.inl h
          · exact Or.inr (Or.inr h)
        · rintro (h | h | h)
          · exact Or.inl h
          · exact Or.inl (h ▸ hst)
          · exact Or.inr h
      · rw [if_neg hst]
        simp only [List.mem_append, List.mem_singleton]
        tauto

theorem mem_insKeys {p : List UpgradeStep} {k : Key} :
    k ∈ insKeys p ↔ k ∈ p.map stepKey := by
  unfold insKeys
  rw [mem_insKeys_aux]
  simp

theorem qualifies_mem_insKeys {s : SimState} {p : List UpgradeStep}
    {cnt : Key → Nat} {k : Key} (h : qualifies s p cnt k) : k ∈ insKeys p := by
  rw [mem_insKeys]
  have hlen : 0 < (positionsOf p k).length := Nat.lt_of_le_of_lt (Nat.zero_le _) h.1
  obtain ⟨i, hi⟩ := List.exists_mem_of_length_pos hlen
  obtain ⟨hin, hkey⟩ := mem_positionsOf.mp hi
  have : p.getD i default ∈ p := by
    rw [List.getD_eq_getElem?_getD, List.getElem?_eq_getElem hin]
    exact List.getElem_mem hin
  exact hkey ▸ List.mem_map_of_mem stepKey this

/-- Invariant of the key scan: with the keys `processed` seen so far, the
running `(best_pos, best_key)` is the sentinel if none of them qualifies,
and otherwise the qualifying processed key of minimal current position. -/
def scanInv (s : SimState) (p : List UpgradeStep) (cnt : Key → Nat)
    (processed : List Key) (best : Nat × Option Key) : Prop :=
  (best.2 = none → best.1 = p.length ∧ ∀ k ∈ processed, ¬ qualifies s p cnt k) ∧
  (∀ kb, best.2 = some kb → qualifies s p cnt kb ∧ kb ∈ processed ∧
    best.1 = curPos p cnt kb ∧
    ∀ k ∈ processed, qualifies s p cnt k → best.1 ≤ curPos p cnt k)

theorem scanInv_extend {s : SimState} {p : List UpgradeStep} {cnt : Key → Nat}
    {processed : List Key} {best : Nat × Option Key} {k : Key}
    (h : scanInv s p cnt processed best) (hnq : ¬ qualifies s p cnt k) :
    scanInv s p cnt (processed ++ [k]) best := by
  obtain ⟨h1, h2⟩ := h
  constructor
  · intro hn
    obtain ⟨ha, hb⟩ := h1 hn
    refine ⟨ha, ?_⟩
    intro k2 hk2
    rcases List.mem_append.mp hk2 with hm | hm
    · exact hb k2 hm
    · rw [List.mem_singleton.mp hm]
      exact hnq
  · intro kb hkb
    obtain ⟨ha, hb, hc, hd⟩ := h2 kb hkb
    refine ⟨ha, List.mem_append_left _ hb, hc, ?_⟩
    intro k2 hk2 hq2
    rcases List.mem_append.mp hk2 with hm | hm
    · exact hd k2 hm hq2
    · rw [List.mem_singleton.mp hm] at hq2
      exact absurd hq2 hnq

theorem scanStep_inv {s : SimState} {p : List UpgradeStep} {cnt : Key → Nat}
    {processed : List Key} {best : Nat × Option Key} (k : Key)
    (h : scanInv s p cnt processed best) :
    scanInv s p cnt (processed ++ [k]) (scanStep p s cnt best k) := by
  have hunf : scanStep p s cnt best k =
      (if (positionsOf p k).length ≤ cnt k then best
       else if best.1 ≤ (positionsOf p k).getD (cnt k) 0 then best
       else match costOfKey s k with
         | none => best
         | some cl =>
             if cl ≠ [] ∧ canAffordL s cl = true
             then ((positionsOf p k).getD (cnt k) 0, some k) else best) := rfl
  rw [hunf]
  by_cases hc1 : (positionsOf p k).length ≤ cnt k
  · rw [if_pos hc1]
    exact scanInv_extend h (fun hq => absurd hq.1 (not_lt.mpr hc1))
  · rw [if_neg hc1]
    have hcnt : cnt k < (positionsOf p k).length := not_le.mp hc1
    have hposlt : curPos p cnt k < p.length := curPos_lt hcnt
    by_cases hc2 : best.1 ≤ (positionsOf p k).getD (cnt k) 0
    · rw [if_pos hc2]
      obtain ⟨h1, h2⟩ := h
      constructor
      · intro hn
        obtain ⟨ha, hb⟩ := h1 hn
        rw [ha] at hc2
        exact absurd hc2 (not_le.mpr hposlt)
      · intro kb hkb
        obtain ⟨ha, hb, hc, hd⟩ := h2 kb hkb
        refine ⟨ha, List.mem_append_left _ hb, hc, ?_⟩
        intro k2 hk2 hq2
        rcases List.mem_append.mp hk2 with hm | hm
        · exact hd k2 hm hq2
        · rw [List.mem_singleton.mp hm]
          exact hc2
    · rw [if_neg hc2]
      have hlt : (positionsOf p k).getD (cnt k) 0 < best.1 := not_le.mp hc2
      cases hcost : costOfKey s k with
      | none =>
          exact scanInv_extend h
            (fun hq => by
              obtain ⟨_, cl, hcl, _, _⟩ := hq
              rw [hcost] at hcl
              exact absurd hcl (by simp))
      | some cl =>
          dsimp only
          by_cases hc3 : cl ≠ [] ∧ canAffordL s cl = true
          · rw [if_pos hc3]
            constructor
            · intro hn
              exact absurd hn (by simp)
            · intro kb hkb
              have hkb2 : k = kb := by
                simpa using hkb
              subst hkb2
              refine ⟨⟨hcnt, cl, hcost, hc3.1, hc3.2⟩,
                List.mem_append_right _ (List.mem_singleton_self k), rfl, ?_⟩
              intro k2 hk2 hq2
              rcases List.mem_append.mp hk2 with hm | hm
              · obtain ⟨h1, h2⟩ := h
                cases hb2 : best.2 with
                | none =>
                    obtain ⟨_, hb⟩ := h1 hb2
                    exact absurd hq2 (hb k2 hm)
                | some kb0 =>
                    obtain ⟨_, _, _, hd⟩ := h2 kb0 hb2
                    exact le_of_lt (lt_of_lt_of_le hlt (hd k2 hm hq2))
              · rw [List.mem_singleton.mp hm]
                exact le_refl _
          · rw [if_neg hc3]
            exact scanInv_extend h
              (fun hq => by
                obtain ⟨_, cl2, hcl2, hne2, haff2⟩ := hq
                rw [hcost] at hcl2
                have : cl2 = cl := (Option.some_inj.mp hcl2).symm
                subst this
                exact hc3 ⟨hne2, haff2⟩)

theorem scanFold_inv (s : SimState) (p : List UpgradeStep) (cnt : Key → Nat) :
    ∀ (ks : List Key) (processed : List Key) (best : Nat × Option Key),
      scanInv s p cnt processed best →
      scanInv s p cnt (processed ++ ks) (ks.foldl (scanStep p s cnt) best) := by
  intro ks
  induction ks with
  | nil =>
      intro processed best h
      simpa using h
  | cons k t ih =>
      intro processed best h
      have h1 := scanStep_inv k h
      have h2 := ih (processed ++ [k]) _ h1
      simpa [List.append_assoc] using h2

theorem selectUpgrade_spec (p : List UpgradeStep) (s : SimState) (cnt : Key → Nat) :
    ((¬ ∃ k, qualifies s p cnt k) → selectUpgrade p s cnt = (p.length, none)) ∧
    ((∃ k, qualifies s p cnt k) → ∃ kb, qualifies s p cnt kb ∧
      selectUpgrade p s cnt = (curPos p cnt kb, some kb) ∧
      (∀ k, qualifies s p cnt k → curPos p cnt kb ≤ curPos p cnt k) ∧
      (∀ k, qualifies s p cnt k → k ≠ kb → curPos p cnt kb < curPos p cnt k)) := by
  have hinv0 : scanInv s p cnt [] (p.length, none) :=
    ⟨fun _ => ⟨rfl, by simp⟩, fun kb hkb => by simp at hkb⟩
  have hinv := scanFold_inv s p cnt (insKeys p) [] (p.length, none) hinv0
  rw [List.nil_append] at hinv
  have hinv2 : scanInv s p cnt (insKeys p) (selectUpgrade p s cnt) := hinv
  obtain ⟨hnone, hsome⟩ := hinv2
  constructor
  · intro hno
    cases hr2 : (selectUpgrade p s cnt).2 with
    | none =>
        obtain ⟨ha, _⟩ := hnone hr2
        have : selectUpgrade p s cnt
            = ((selectUpgrade p s cnt).1, (selectUpgrade p s cnt).2) := rfl
        rw [this, ha, hr2]
    | some kb =>
        obtain ⟨hq, _, _, _⟩ := hsome kb hr2
        exact absurd ⟨kb, hq⟩ hno
  · rintro ⟨k0, hk0⟩
    cases hr2 : (selectUpgrade p s cnt).2 with
    | none =>
        obtain ⟨_, hb⟩ := hnone hr2
        exact absurd hk0 (hb k0 (qualifies_mem_insKeys hk0))
    | some kb =>
        obtain ⟨hq, _, hc, hd⟩ := hsome kb hr2
        refine ⟨kb, hq, ?_, ?_, ?_⟩
        · have : selectUpgrade p s cnt
              = ((selectUpgrade p s cnt).1, (selectUpgrade p s cnt).2) := rfl
          rw [this, hc, hr2]
        · intro k hk
          have := hd k (qualifies_mem_insKeys hk) hk
          rw [← hc]
          exact this
        · intro k hk hne
          have hle := hd k (qualifies_mem_insKeys hk) hk
          rw [hc] at hle
          rcases lt_or_eq_of_le hle with hlt | heq
          · exact hlt
          · exact absurd (curPos_inj hq.1 hk.1 heq).symm hne

theorem upgradeApplied_true {s : SimState} {k : Key} {cl : Cost}
    (hcost : costOfKey s k = some cl) (haff : canAffordL s cl = true) :
    upgradeApplied k s = true := by
  obtain ⟨kind, uid⟩ := k
  cases kind with
  | creature =>
      have hc : get_creature_upgrade_cost EVENT_CONFIG s uid = some cl := hcost
      show (upgrade_creature EVENT_CONFIG uid s).1 = true
      by_cases hu : s.creature_unlocked uid = false
      · simp [upgrade_creature, hc, haff, hu]
      · simp [upgrade_creature, hc, haff, hu]
  | boost =>
      have hc : get_boost_upgrade_cost EVENT_CONFIG s uid = some cl := hcost
      show (upgrade_boost EVENT_CONFIG uid s).1 = true
      simp [upgrade_boost, hc, haff]

theorem applyKey_time (k : Key) (s : SimState) :
    (applyKey k s).time_elapsed_ms = s.time_elapsed_ms := by
  obtain ⟨kind, uid⟩ := k
  cases kind with
  | creature => exact (upgrade_creature_frame EVENT_CONFIG uid s).2.2
  | boost => exact (upgrade_boost_frame EVENT_CONFIG uid s).2.2

theorem decideStep_time (p : List UpgradeStep) (st : SimState × (Key → Nat)) :
    (decideStep p st).1.time_elapsed_ms = st.1.time_elapsed_ms + STEP_MS := by
  have hunf : decideStep p st =
      (match (selectUpgrade p st.1 st.2).2 with
        | none => (advance EVENT_CONFIG STEP_MS st.1, st.2)
        | some k => (advance EVENT_CONFIG STEP_MS (applyKey k st.1),
            Function.update st.2 k (st.2 k + 1))) := rfl
  rw [hunf]
  cases (selectUpgrade p st.1 st.2).2 with
  | none =>
      exact (advance_spec EVENT_CONFIG STEP_MS st.1 wf_EVENT_CONFIG.1).1
  | some k =>
      dsimp only
      rw [(advance_spec EVENT_CONFIG STEP_MS (applyKey k st.1) wf_EVENT_CONFIG.1).1,
        applyKey_time]

theorem simLoop_done (p : List UpgradeStep) :
    ∀ (f : Nat) (st : SimState × (Key → Nat)),
      EVENT_CONFIG.duration ≤ st.1.time_elapsed_ms + STEP_MS * (f : ℚ) →
      is_done EVENT_CONFIG (simLoop p f st).1 = true := by
  intro f
  induction f with
  | zero =>
      intro st h
      show is_done EVENT_CONFIG st.1 = true
      unfold is_done
      rw [decide_eq_true_eq]
      simpa using h
  | succ f ih =>
      intro st h
      rw [simLoop]
      by_cases hdone : is_done EVENT_CONFIG st.1 = true
      · rw [if_pos hdone]
        exact hdone
      · rw [if_neg hdone]
        apply ih
        rw [decideStep_time]
        have : (((f : ℚ)) + 1) = ((f + 1 : Nat) : ℚ) := by push_cast; ring
        calc EVENT_CONFIG.duration
            ≤ st.1.time_elapsed_ms + STEP_MS * ((f + 1 : Nat) : ℚ) := h
          _ = st.1.time_elapsed_ms + STEP_MS + STEP_MS * (f : ℚ) := by
              push_cast
              ring

theorem decideStepLog_agree (p : List UpgradeStep)
    (st : (SimState × (Key → Nat)) × List LogEntry) :
    (decideStepLog p st).1 = decideStep p st.1 := by
  unfold decideStepLog decideStep
  cases hsel : (selectUpgrade p st.1.1 st.1.2).2 with
  | none => simp [hsel]
  | some k => simp [hsel]

theorem simLoopLog_agree (p : List UpgradeStep) :
    ∀ (f : Nat) (st : (SimState × (Key → Nat)) × List LogEntry),
      (simLoopLog p f st).1 = simLoop p f st.1 := by
  intro f
  induction f with
  | zero => intro st; rfl
  | succ f ih =>
      intro st
      rw [simLoopLog, simLoop]
      by_cases hdone : is_done EVENT_CONFIG st.1.1 = true
      · rw [if_pos hdone, if_pos hdone]
      · rw [if_neg hdone, if_neg hdone, ih, decideStepLog_agree]

/-- **C4.** At every decision tick of the evaluator: if no key with an
unconsumed step has a purchasable, affordable current cost, the tick is
exactly `advance(STEP_MS)` with the pointers untouched; otherwise exactly
one purchase is made — the qualifying key of strictly smallest current
ordering position — that purchase succeeds, only its pointer is advanced,
and `advance(STEP_MS)` is then called on the purchased state.  The loop
repeats until `is_done` (the final state of the fueled loop satisfies it,
the fuel never being exhausted first), `simulate` returns that final
state's total damage, and `simulate_with_log` drives the identical
simulation and returns the same damage and final state. -/
theorem claim_C4_evaluator (p : List UpgradeStep) (st : SimState × (Key → Nat)) :
    ((¬ ∃ k, qualifies st.1 p st.2 k) →
      decideStep p st = (advance EVENT_CONFIG STEP_MS st.1, st.2)) ∧
    ((∃ k, qualifies st.1 p st.2 k) →
      ∃ kb, qualifies st.1 p st.2 kb ∧
        (∀ k, qualifies st.1 p st.2 k → curPos p st.2 kb ≤ curPos p st.2 k) ∧
        (∀ k, qualifies st.1 p st.2 k → k ≠ kb →
          curPos p st.2 kb < curPos p st.2 k) ∧
        upgradeApplied kb st.1 = true ∧
        decideStep p st = (advance EVENT_CONFIG STEP_MS (applyKey kb st.1),
          Function.update st.2 kb (st.2 kb + 1))) ∧
    is_done EVENT_CONFIG (simLoop p SIM_FUEL simInit).1 = true ∧
    simulate p = (simLoop p SIM_FUEL simInit).1.total_damage ∧
    (simulate_with_log p).1 = simulate p ∧
    (simulate_with_log p).2.2 = (simLoop p SIM_FUEL simInit).1 := by
  have hunf : decideStep p st =
      (match (selectUpgrade p st.1 st.2).2 with
        | none => (advance EVENT_CONFIG STEP_MS st.1, st.2)
        | some k => (advance EVENT_CONFIG STEP_MS (applyKey k st.1),
            Function.update st.2 k (st.2 k + 1))) := rfl
  obtain ⟨hno, hyes⟩ := selectUpgrade_spec p st.1 st.2
  have hlog := simLoopLog_agree p SIM_FUEL (simInit, [])
  refine ⟨?_, ?_, ?_, rfl, ?_, ?_⟩
  · intro h
    have h2 : (selectUpgrade p st.1 st.2).2 = none := by rw [hno h]
    rw [hunf, h2]
  · intro h
    obtain ⟨kb, hq, hsel, hmin, hstrict⟩ := hyes h
    obtain ⟨hcnt, cl, hcost, hne, haff⟩ := hq
    have h2 : (selectUpgrade p st.1 st.2).2 = some kb := by rw [hsel]
    refine ⟨kb, ⟨hcnt, cl, hcost, hne, haff⟩, hmin, hstrict,
      upgradeApplied_true hcost haff, ?_⟩
    rw [hunf, h2]
  · apply simLoop_done
    show EVENT_CONFIG.duration ≤ (reset EVENT_CONFIG).time_elapsed_ms
      + STEP_MS * ((SIM_FUEL : Nat) : ℚ)
    norm_num [EVENT_CONFIG, EVENT_DURATION_HOURS, TIME_FACTOR, HOURS, reset,
      STEP_MS, SIM_FUEL]
  · show (simLoopLog p SIM_FUEL (simInit, [])).1.1.total_damage = simulate p
    rw [hlog]
    rfl
  · show (simLoopLog p SIM_FUEL (simInit, [])).1.1 = (simLoop p SIM_FUEL simInit).1
    rw [hlog]

/-! ## Parameter validation of the search entry points (claim C9) -/

/-- A degenerate oracle: the shuffle leaves the template in place. -/
def idOracle : SAOracle where
  shuffle := fun l => l
  perturb := fun _ => Perturb.swap 0 0
  acceptWorse := fun _ _ => false

/-- **C9 (counterexample).** No call-time validation exists.  With zero
iterations `simulated_annealing` returns normally — under an identity
shuffle it returns the *unshuffled template* and its score as "best", the
precise degenerate outcome the specification says must be prevented — and
`optimize` with a zero or negative restart count returns normally with
`(None, 0.0)` (no ordering at all) when the hill-climb pass cap is zero.
In the embedding a rejected call would be an `Except.error`; these calls
produce plain values / `Except.ok`. -/
theorem claim_C9_counterexample :
    simulated_annealing idOracle 0 = (buildTemplate, simulate buildTemplate) ∧
    optimize (fun _ => idOracle) 5 0 0 = Except.ok (none, 0) ∧
    optimize (fun _ => idOracle) 5 (-3) 0 = Except.ok (none, 0) :=
  ⟨rfl, rfl, rfl⟩

/-- **C9 (amended).** The search entry points perform no parameter
validation.  `simulated_annealing` with `n_iter = 0` silently returns the
initial shuffle and its score (degenerate: no optimization at all);
`optimize` with a nonpositive restart count never runs the annealing, and
then either silently returns `(None, 0.0)` (hill-climb pass cap zero) or
fails later inside `hill_climb(None)` with a non-descriptive `TypeError`
(positive pass cap) — never with a call-time error describing the bad
parameter. -/
theorem claim_C9_no_validation (o : SAOracle) (f : Nat → SAOracle)
    (n_iter : Nat) (n_restarts : ℤ) :
    simulated_annealing o 0
      = (o.shuffle buildTemplate, simulate (o.shuffle buildTemplate)) ∧
    (n_restarts ≤ 0 → optimize f n_iter n_restarts 0 = Except.ok (none, 0)) ∧
    (n_restarts ≤ 0 → ∀ hc_passes : Nat, hc_passes ≠ 0 →
      optimize f n_iter n_restarts hc_passes
        = Except.error "TypeError: object of type NoneType has no len()") := by
  refine ⟨rfl, ?_, ?_⟩
  · intro h
    unfold optimize
    rw [Int.toNat_of_nonpos h]
    rfl
  · intro h hc_passes hp
    unfold optimize
    rw [Int.toNat_of_nonpos h]
    dsimp only [List.range_zero, List.foldl_nil]
    rw [if_neg hp]
